import Mathlib

/-!
# Verification of the news-automation pipeline core

Shallow embedding of the pure/algorithmic core of the repository
(`news_rss.py`, `news_dual.py`) and proofs of the specification claims
about it.

Conventions of the embedding:

* Python machine-level or library behaviour is modelled explicitly:
  `str` becomes `String`, Python `bytes` become `List Nat` (each < 256),
  32-bit arithmetic is `Nat` arithmetic taken `% 2^32`, Python floats in
  the timing computations become exact rationals `ℚ`.
* Python `set` values are modelled as `List String` with set-like
  insertion (`List.insert`, which is a no-op on a present element);
  membership is all the code observes, except in `save_used_news`, where
  the *iteration order* of the set is observable — there the order is an
  explicit input (any enumeration of the set's elements).
* Network fetching (`feedparser.parse`, `requests.get`) is an external
  collaborator: its results arrive as inputs to the embedded functions.
  `random.shuffle` calls on input orders are modelled by letting the
  caller pass the (arbitrary) order; the final presentation shuffle is a
  function parameter constrained to be a permutation where needed.
-/

/-! ## Python string primitives

Python `str.strip` / `str.split()` / `str.lower` and the ASCII parts
of the `re` character classes `\w` / `\s` used by the code. -/

/-- Python whitespace for `str.split()` / `str.strip()` (ASCII part):
space, tab, newline, carriage return, vertical tab, form feed. -/
def isWs (c : Char) : Bool :=
  c.toNat == 32 || c.toNat == 9 || c.toNat == 10 || c.toNat == 13 ||
  c.toNat == 11 || c.toNat == 12

/-- Python regex `\w` (ASCII part): letters, digits, underscore. -/
def isWordChar (c : Char) : Bool :=
  c.isAlpha || c.isDigit || c == '_'

/-- Python `str.lower()` (ASCII case mapping). -/
def pyLower (s : String) : String := String.mk (s.data.map Char.toLower)

/-- Python `str.strip()` on a character list: drop leading and trailing whitespace. -/
def pyStripL (l : List Char) : List Char :=
  ((l.dropWhile isWs).reverse.dropWhile isWs).reverse

/-- Python `str.strip()`. -/
def pyStrip (s : String) : String := String.mk (pyStripL s.data)

/-- Worker for `pyWords`, structurally recursive on a fuel argument so
that the kernel can evaluate it on concrete inputs.  Each step consumes
at least one character, so `fuel = l.length` always suffices. -/
def pyWordsGo : Nat → List Char → List (List Char)
  | 0, _ => []
  | _, [] => []
  | fuel + 1, c :: rest =>
    if isWs c then pyWordsGo fuel rest
    else (c :: rest.takeWhile (fun d => !isWs d)) ::
         pyWordsGo fuel (rest.dropWhile (fun d => !isWs d))

/-- Python `str.split()` with no argument: maximal runs of
non-whitespace characters, empty runs discarded. -/
def pyWords (l : List Char) : List (List Char) := pyWordsGo l.length l

/-- The list of words of a string, as Python `s.split()`. -/
def pySplit (s : String) : List String := (pyWords s.data).map String.mk

/-- Substring test on character lists (`needle` occurs contiguously in
`hay`), the semantics of Python `needle in hay` on strings. -/
def listPrefixB : List Char → List Char → Bool
  | [], _ => true
  | _ :: _, [] => false
  | a :: as, b :: bs => a == b && listPrefixB as bs

def listInfixB (needle : List Char) : List Char → Bool
  | [] => listPrefixB needle []
  | c :: rest => listPrefixB needle (c :: rest) || listInfixB needle rest

/-- Python `sub in text` for strings. -/
def strContains (text sub : String) : Bool := listInfixB sub.data text.data

/-! ## MD5 (RFC 1321)

`get_news_id` in both `news_rss.py` and `news_dual.py` is
`hashlib.md5(title.encode()).hexdigest()[:16]`; we embed MD5 itself so
that identities are the real values the code computes.  All 32-bit
arithmetic is `Nat` arithmetic modulo `2^32`. -/

def w32 : Nat := 4294967296

/-- Per-round left-rotation amounts. -/
def md5S : List Nat :=
  [7, 12, 17, 22, 7, 12, 17, 22, 7, 12, 17, 22, 7, 12, 17, 22,
   5, 9, 14, 20, 5, 9, 14, 20, 5, 9, 14, 20, 5, 9, 14, 20,
   4, 11, 16, 23, 4, 11, 16, 23, 4, 11, 16, 23, 4, 11, 16, 23,
   6, 10, 15, 21, 6, 10, 15, 21, 6, 10, 15, 21, 6, 10, 15, 21]

/-- The 64 sine-derived constants of MD5. -/
def md5K : List Nat :=
  [0xd76aa478, 0xe8c7b756, 0x242070db, 0xc1bdceee,
   0xf57c0faf, 0x4787c62a, 0xa8304613, 0xfd469501,
   0x698098d8, 0x8b44f7af, 0xffff5bb1, 0x895cd7be,
   0x6b901122, 0xfd987193, 0xa679438e, 0x49b40821,
   0xf61e2562, 0xc040b340, 0x265e5a51, 0xe9b6c7aa,
   0xd62f105d, 0x02441453, 0xd8a1e681, 0xe7d3fbc8,
   0x21e1cde6, 0xc33707d6, 0xf4d50d87, 0x455a14ed,
   0xa9e3e905, 0xfcefa3f8, 0x676f02d9, 0x8d2a4c8a,
   0xfffa3942, 0x8771f681, 0x6d9d6122, 0xfde5380c,
   0xa4beea44, 0x4bdecfa9, 0xf6bb4b60, 0xbebfbc70,
   0x289b7ec6, 0xeaa127fa, 0xd4ef3085, 0x04881d05,
   0xd9d4d039, 0xe6db99e5, 0x1fa27cf8, 0xc4ac5665,
   0xf4292244, 0x432aff97, 0xab9423a7, 0xfc93a039,
   0x655b59c3, 0x8f0ccc92, 0xffeff47d, 0x85845dd1,
   0x6fa87e4f, 0xfe2ce6e0, 0xa3014314, 0x4e0811a1,
   0xf7537e82, 0xbd3af235, 0x2ad7d2bb, 0xeb86d391]

/-- Bitwise complement on 32 bits. -/
def md5Not (x : Nat) : Nat := x ^^^ 0xffffffff

/-- Bitwise left rotation on 32 bits. -/
def rotl32 (x n : Nat) : Nat := ((x <<< n) % w32) ||| (x >>> (32 - n))

/-- The round boolean function of MD5, selected by the round index. -/
def md5F (i b c d : Nat) : Nat :=
  if i < 16 then (b &&& c) ||| (md5Not b &&& d)
  else if i < 32 then (d &&& b) ||| (md5Not d &&& c)
  else if i < 48 then b ^^^ c ^^^ d
  else c ^^^ (b ||| md5Not d)

/-- The message-word index used in round `i`. -/
def md5G (i : Nat) : Nat :=
  if i < 16 then i
  else if i < 32 then (5 * i + 1) % 16
  else if i < 48 then (3 * i + 5) % 16
  else (7 * i) % 16

/-- One MD5 round on the state `(a, b, c, d)`. -/
def md5Round (M : List Nat) (st : Nat × Nat × Nat × Nat) (i : Nat) :
    Nat × Nat × Nat × Nat :=
  let a := st.1
  let b := st.2.1
  let c := st.2.2.1
  let d := st.2.2.2
  let f := (md5F i b c d + a + md5K.getD i 0 + M.getD (md5G i) 0) % w32
  (d, (b + rotl32 f (md5S.getD i 0)) % w32, b, c)

/-- Process one 64-byte chunk. -/
def md5Chunk (st : Nat × Nat × Nat × Nat) (chunk : List Nat) :
    Nat × Nat × Nat × Nat :=
  let M := (List.range 16).map fun j =>
    chunk.getD (4 * j) 0 + 256 * chunk.getD (4 * j + 1) 0 +
    65536 * chunk.getD (4 * j + 2) 0 + 16777216 * chunk.getD (4 * j + 3) 0
  let r := (List.range 64).foldl (md5Round M) st
  ((st.1 + r.1) % w32, (st.2.1 + r.2.1) % w32,
   (st.2.2.1 + r.2.2.1) % w32, (st.2.2.2 + r.2.2.2) % w32)

/-- Little-endian bytes: the low `n` bytes of `x`. -/
def leBytes : Nat → Nat → List Nat
  | 0, _ => []
  | n + 1, x => (x % 256) :: leBytes n (x / 256)

/-- MD5 padding: `0x80`, zeros to 56 mod 64, 8-byte little-endian bit length. -/
def padMsg (m : List Nat) : List Nat :=
  let l := m.length
  let z := (120 - ((l + 1) % 64)) % 64
  m ++ 0x80 :: (List.replicate z 0 ++ leBytes 8 ((8 * l) % (2 ^ 64)))

/-- Worker for `chunksOf64`; fuel-based so the kernel can evaluate it
(`fuel = l.length` suffices since each step consumes 64 bytes). -/
def chunksOf64Go : Nat → List Nat → List (List Nat)
  | 0, _ => []
  | _, [] => []
  | fuel + 1, c :: rest => (c :: rest).take 64 :: chunksOf64Go fuel ((c :: rest).drop 64)

/-- Split a byte list into 64-byte chunks. -/
def chunksOf64 (l : List Nat) : List (List Nat) := chunksOf64Go l.length l

/-- The 16-byte MD5 digest of a byte list. -/
def md5Digest (m : List Nat) : List Nat :=
  let r := (chunksOf64 (padMsg m)).foldl md5Chunk
    (0x67452301, 0xefcdab89, 0x98badcfe, 0x10325476)
  leBytes 4 r.1 ++ leBytes 4 r.2.1 ++ leBytes 4 r.2.2.1 ++ leBytes 4 r.2.2.2

def hexDigitChar (n : Nat) : Char :=
  if n < 10 then Char.ofNat (48 + n) else Char.ofNat (87 + n)

def byteHex (b : Nat) : List Char := [hexDigitChar (b / 16), hexDigitChar (b % 16)]

/-- Python `hashlib.md5(m).hexdigest()`. -/
def md5HexDigest (m : List Nat) : String :=
  String.mk ((md5Digest m).map byteHex).flatten

/-- UTF-8 encoding of one code point. -/
def utf8Bytes (n : Nat) : List Nat :=
  if n < 128 then [n]
  else if n < 2048 then [192 + n / 64, 128 + n % 64]
  else if n < 65536 then [224 + n / 4096, 128 + n / 64 % 64, 128 + n % 64]
  else [240 + n / 262144, 128 + n / 4096 % 64, 128 + n / 64 % 64, 128 + n % 64]

/-- Python `s.encode()` (UTF-8 bytes of a string). -/
def strBytes (s : String) : List Nat :=
  (s.data.map fun c => utf8Bytes c.toNat).flatten

/-- Embeds `get_news_id` (news_rss.py line 182, news_dual.py line 387):
`hashlib.md5(title.encode()).hexdigest()[:16]`.  Both copies hash the
*raw* title; no normalization is applied before hashing. -/
def getNewsId (title : String) : String := (md5HexDigest (strBytes title)).take 16

set_option maxRecDepth 40000

/-- Sanity: the embedded MD5 agrees with RFC 1321 test vectors. -/
theorem md5_rfc_vectors :
    md5HexDigest (strBytes "") = "d41d8cd98f00b204e9800998ecf8427e" ∧
    md5HexDigest (strBytes "abc") = "900150983cd24fb0d6963f7d28e17f72" := by
  constructor <;> decide

/-! ## Keyword tables (news_rss.py lines 135-287)

The static keyword lists driving the breaking-news and local-news
classifiers and the topic grouping. -/

/-- Embeds `BREAKING_KEYWORDS` (news_rss.py line 135). -/
def BREAKING_KEYWORDS : List String :=
  ["breaking", "just in", "urgent", "developing", "alert",
   "dies", "dead", "killed", "assassination", "assassinated",
   "war", "invasion", "attack", "explosion", "bombing", "missile",
   "earthquake", "tsunami", "hurricane", "typhoon", "wildfire",
   "crash", "collapse", "bankruptcy", "default",
   "resigns", "resigned", "impeached", "arrested", "indicted",
   "record", "historic", "first ever", "unprecedented"]

/-- Embeds `TOPIC_KEYWORDS` (news_rss.py line 165), in the dict's insertion
order (Python dict iteration order). -/
def TOPIC_KEYWORDS : List (String × List String) :=
  [("venezuela", ["maduro", "caracas", "venezuelan"]),
   ("ukraine", ["kyiv", "kiev", "zelensky", "ukrainian"]),
   ("russia", ["moscow", "putin", "russian", "kremlin"]),
   ("china", ["beijing", "chinese", "xi jinping"]),
   ("iran", ["tehran", "iranian"]),
   ("israel", ["gaza", "hamas", "palestinian", "tel aviv", "israeli"]),
   ("north korea", ["pyongyang", "kim jong"]),
   ("taiwan", ["taipei", "taiwanese"])]

/-- Embeds `LOCAL_KEYWORDS` (news_rss.py line 270). -/
def LOCAL_KEYWORDS : List String :=
  ["florida", "texas", "california", "new york city", "nyc", "los angeles",
   "chicago", "boston", "seattle", "denver", "atlanta", "miami", "phoenix",
   "detroit", "portland",
   "london", "manchester", "birmingham", "liverpool", "scotland", "wales",
   "northern ireland",
   "sydney", "melbourne", "brisbane", "perth", "adelaide",
   "local council", "city council", "county", "municipality", "township",
   "school board", "school district", "high school", "elementary school",
   "local police", "sheriff", "state trooper",
   "minor league", "college football", "college basketball", "ncaa",
   "high school sports",
   "residents say", "neighbors", "local community", "town hall",
   "local election", "state legislature", "governor signs", "mayor announces"]

/-! ## Similarity, classifiers, topic matching (news_rss.py lines 182-316) -/

/-- Embeds `normalize_title` (news_rss.py line 187): lowercase, remove
characters matching `[^\w\s]`, collapse whitespace runs. -/
def normalize_title (title : String) : String :=
  let lowered := pyLower title
  let cleaned := lowered.data.filter fun c => isWordChar c || isWs c
  String.intercalate " " ((pyWords cleaned).map String.mk)

/-- The set of words of `normalize_title t` (the Python
`set(normalize_title(t).split())`). -/
def normTokens (t : String) : Finset String :=
  ((pyWords (normalize_title t).data).map String.mk).toFinset

/-- Embeds `titles_match` (news_rss.py line 195): Jaccard index of normalized
word sets compared against `threshold`; `False` when either word set is
empty.  The quotient `intersection / union` is the exact rational
`Rat.divInt intersection union` (equal to field division of the casts,
see `jaccard_eq_div`). -/
def titles_match (title1 title2 : String) (threshold : ℚ) : Bool :=
  let words1 := normTokens title1
  let words2 := normTokens title2
  if words1 = ∅ ∨ words2 = ∅ then false
  else
    decide (threshold ≤ Rat.divInt ((words1 ∩ words2).card : Int) ((words1 ∪ words2).card : Int))

/-- Embeds `is_breaking_news` (news_rss.py line 209): does the lowercased
`title + " " + description` contain any breaking keyword? -/
def is_breaking_news (title : String) (description : String := "") : Bool :=
  let text := pyLower (title ++ " " ++ description)
  BREAKING_KEYWORDS.any fun kw => strContains text kw

/-- Embeds `get_topic_key` (news_rss.py line 220): the first topic entry any of
whose keywords occurs in the text, provided the text also contains a
breaking keyword; `""` otherwise. -/
def get_topic_key (title : String) (description : String := "") : String :=
  let text := pyLower (title ++ " " ++ description)
  go text TOPIC_KEYWORDS
where
  go (text : String) : List (String × List String) → String
    | [] => ""
    | (mainKw, related) :: rest =>
      if (mainKw :: related).any (fun kw => strContains text kw) then
        if BREAKING_KEYWORDS.any (fun bk => strContains text bk) then mainKw
        else go text rest
      else go text rest

/-- Embeds `same_topic` (news_rss.py line 239): 40% title similarity OR equal
non-empty topic keys. -/
def same_topic (title1 title2 : String) (desc1 : String := "") (desc2 : String := "") :
    Bool :=
  if titles_match title1 title2 (Rat.divInt 2 5) then true
  else
    let topic1 := get_topic_key title1 desc1
    let topic2 := get_topic_key title2 desc2
    if topic1 ≠ "" ∧ topic2 ≠ "" ∧ topic1 = topic2 then true else false

/-- Embeds `is_local_news` (news_rss.py line 290). -/
def is_local_news (title : String) (description : String := "") : Bool :=
  let text := pyLower (title ++ " " ++ description)
  LOCAL_KEYWORDS.any fun kw => strContains text kw

/-- Embeds `is_similar_news` (news_rss.py line 299): Jaccard similarity of
*lowercased whitespace-token sets* (no punctuation stripping here)
against any of `existing_titles`; pairs with an empty token set on
either side are skipped. -/
def is_similar_news (newTitle : String) (existingTitles : List String)
    (threshold : ℚ := Rat.divInt 1 2) : Bool :=
  let newWords := ((pyWords (pyLower newTitle).data).map String.mk).toFinset
  existingTitles.any fun existing =>
    let existingWords := ((pyWords (pyLower existing).data).map String.mk).toFinset
    if newWords = ∅ ∨ existingWords = ∅ then false
    else
      decide (threshold ≤
        Rat.divInt ((newWords ∩ existingWords).card : Int)
          ((newWords ∪ existingWords).card : Int))

/-! ## Data model and feed parsing (news_rss.py lines 114-378)

`feedparser.parse(url)` is network I/O; a feed's (already parsed)
entries arrive as input.  `parse_feed`'s own pure logic — taking the
first 10 entries, HTML-tag removal and truncation of the description,
the stripped-title length filter, and the stamping of source/category —
is embedded below.  A feed whose fetch raised is modelled by an empty
entry list (the `except` branch returns `[]`). -/

structure RawEntry where
  title : String
  description : String
  link : String
deriving DecidableEq, Repr

structure Article where
  title : String
  description : String
  source : String
  category : String
  link : String
deriving DecidableEq, Repr

/-- Embeds `CATEGORY_NAMES` (news_rss.py line 115, identical dict at
news_dual.py line 411), in insertion order. -/
def CATEGORY_NAMES : List (String × String) :=
  [("world", "World"), ("business", "Business"), ("technology", "Technology"),
   ("science", "Science"), ("health", "Health"), ("sports", "Sports"),
   ("entertainment", "Entertainment"), ("environment", "Environment")]

/-- Python `CATEGORY_NAMES.get(category, category)`. -/
def catDisplay (category : String) : String :=
  (List.lookup category CATEGORY_NAMES).getD category

/-- Python `CATEGORY_NAMES.get(category)` (default `None`). -/
def catDisplayOpt (category : String) : Option String :=
  List.lookup category CATEGORY_NAMES

/-- Index of the first `>` in a character list. -/
def idxOfGt (l : List Char) : Option Nat := l.findIdx? (fun c => c == '>')

/-- Worker for `stripTags` (fuel-based; each step consumes at least one
character, so `fuel = l.length` suffices).  Mirrors
`re.sub(r'<[^>]+>', '', description)`: a `<` followed by one or more
non-`>` characters and a `>` is deleted; a `<` with no such match is
kept and scanning resumes at the next character. -/
def stripTagsGo : Nat → List Char → List Char
  | 0, _ => []
  | _, [] => []
  | fuel + 1, c :: rest =>
    if c == '<' then
      match idxOfGt rest with
      | some k =>
        if 1 ≤ k then stripTagsGo fuel (rest.drop (k + 1))
        else c :: stripTagsGo fuel rest
      | none => c :: stripTagsGo fuel rest
    else c :: stripTagsGo fuel rest

def stripTags (l : List Char) : List Char := stripTagsGo l.length l

/-- The description cleanup in `parse_feed` (news_rss.py lines 361-364):
when non-empty, remove HTML tags, strip, and truncate to 500 characters. -/
def cleanDescription (d : String) : String :=
  if d = "" then d
  else String.mk ((pyStripL (stripTags d.data)).take 500)

/-- Embeds `parse_feed` (news_rss.py line 349) minus the network call: the
first 10 entries, stripped titles longer than 20 characters, stamped
with the source name and the category display name. -/
def parse_feed (sourceName category : String) (entries : List RawEntry) : List Article :=
  (entries.take 10).filterMap fun e =>
    let title := pyStrip e.title
    if title ≠ "" ∧ 20 < title.length then
      some { title := title, description := cleanDescription e.description,
             source := sourceName, category := catDisplay category, link := e.link }
    else none

/-! ## Used-news persistence (news_rss.py lines 319-346)

`save_used_news` receives a Python `set` and persists
`list(used)[-max_keep:]`.  A CPython `set` of strings has *no* defined
iteration order (string hashing is randomized per process), so
`list(used)` is some enumeration of the set's elements; that enumeration
is the explicit input here.  `l[-k:]` is Python slicing: the last `k`
elements — except that `k = 0` gives `l[-0:] = l[0:]`, the whole list. -/

def pyLastSlice (l : List α) (k : Nat) : List α :=
  if k = 0 then l else l.drop (l.length - k)

/-- Embeds `save_used_news` (news_rss.py line 335, `max_keep = 500`;
news_dual.py line 379, `max_keep = 200`): the list persisted as
`{"used": [...]}` given the set's iteration order. -/
def save_used_news (usedIterOrder : List String) (maxKeep : Nat := 500) : List String :=
  pyLastSlice usedIterOrder maxKeep

/-! ## Breaking-news detection (news_rss.py lines 574-689)

State observed and written by `detect_breaking_news`: the `breaking`
used-identity set and today's entry of `daily_counts` (the calendar
date and the 7-day pruning of *other* dates live at the persistence
boundary; the scan only reads and increments today's counter).
Feed results arrive as one list of already-parsed articles per feed,
in the code's iteration order over `RSS_FEEDS`; `fetchCalls` counts the
`parse_feed` invocations the run performs. -/

structure BState where
  used : List String
  todayCount : Nat
deriving DecidableEq, Repr

def MAX_BREAKING_PER_DAY : Nat := 3

/-- One topic group: `[representative_news, count, sources]`
(news_rss.py line 641). -/
abbrev NewsGroup := Article × Nat × List String

/-- The inner group-matching loop (news_rss.py lines 661-670): bump the
first group whose representative satisfies `same_topic` with the
article, otherwise append a fresh group with the article as
representative. -/
def addToGroups : List NewsGroup → Article → List NewsGroup
  | [], news => [(news, 1, [news.source])]
  | g :: gs, news =>
    if same_topic news.title g.1.title news.description g.1.description then
      (g.1, g.2.1 + 1, g.2.2.insert news.source) :: gs
    else g :: addToGroups gs news

/-- The article scan of `detect_breaking_news` (lines 643-670): skip
non-breaking articles, already-reported identities and local news;
group the rest. -/
def scanArticles (used : List String) : List Article → List NewsGroup → List NewsGroup
  | [], groups => groups
  | news :: rest, groups =>
    if !is_breaking_news news.title news.description then
      scanArticles used rest groups
    else if getNewsId news.title ∈ used then
      scanArticles used rest groups
    else if is_local_news news.title news.description then
      scanArticles used rest groups
    else
      scanArticles used rest (addToGroups groups news)

/-- The selection loop (lines 673-686): first group, in discovery
order, with at least `minSources` distinct sources. -/
def findQualifying (minSources : Nat) : List NewsGroup → Option NewsGroup
  | [] => none
  | g :: gs => if minSources ≤ g.2.2.length then some g else findQualifying minSources gs

structure DetectOut where
  result : Option Article
  state : BState
  fetchCalls : Nat
deriving DecidableEq, Repr

/-- Embeds `detect_breaking_news` (news_rss.py line 608).  Quota first (no
fetching when exhausted); otherwise every feed is fetched, surviving
articles are grouped, and the first group with enough distinct sources
yields its representative, whose identity is added to the breaking
used-set while today's count is incremented. -/
def detect_breaking_news (minSources : Nat) (feedResults : List (List Article))
    (st : BState) : DetectOut :=
  if MAX_BREAKING_PER_DAY ≤ st.todayCount then ⟨none, st, 0⟩
  else
    let allNews := feedResults.flatten
    let groups := scanArticles st.used allNews []
    match findQualifying minSources groups with
    | some g =>
      ⟨some g.1, ⟨st.used.insert (getNewsId g.1.title), st.todayCount + 1⟩,
       feedResults.length⟩
    | none => ⟨none, st, feedResults.length⟩

/-! ## Audio-synchronized video assembly (news_dual.py lines 1248-1323)

`create_synced_video` writes an ffmpeg concat script: the sequence of
`file`/`duration` pairs is the edit script; durations are exact
rationals here.  (The format's required repetition of the final file
name carries no duration and is not an entry.)  Segment types are the
raw strings the code compares against (`"news"`, `"intro"`, `"outro"`);
`news_index` is `-1` for intro/outro segments, hence `Int`.  The image
pool `news_images` is a dict `{news_index: [images]}`, modelled as an
association list. -/

structure AudioSeg where
  newsIndex : Int
  duration : ℚ
  segType : String
deriving DecidableEq, Repr

/-- Python `max(news_images.keys())` (line 1283); only used on a non-empty pool. -/
def maxPoolKey (pool : List (Int × List String)) : Int :=
  match pool with
  | [] => 0
  | p :: rest => rest.foldl (fun m q => max m q.1) p.1

/-- The edit-script entries one segment contributes (lines 1264-1290):
a `news` segment whose index is in the pool spreads its duration evenly
over that story's images; an `intro` uses the first image of story 0
and an `outro` the last image of the highest-index story, each with the
segment's full duration; any other case emits nothing (`continue`).
The embedding assumes pool image lists are non-empty (an empty list
would raise `ZeroDivisionError` / `IndexError` in the source). -/
def entriesForSeg (pool : List (Int × List String)) (seg : AudioSeg) :
    List (String × ℚ) :=
  match (if seg.segType = "news" then List.lookup seg.newsIndex pool else none) with
  | some imgs => imgs.map fun img => (img, seg.duration / (imgs.length : ℚ))
  | none =>
    if seg.segType = "intro" then
      match List.lookup (0 : Int) pool with
      | some imgs => [(imgs.headD "", seg.duration)]
      | none => []
    else if seg.segType = "outro" then
      match pool with
      | [] => []
      | _ :: _ =>
        [(((List.lookup (maxPoolKey pool) pool).getD []).getLastD "", seg.duration)]
    else []

/-- Embeds `ending_duration = 2.0 if is_shorts else 3.0` with
`is_shorts = width < height` (lines 1256-1258). -/
def endingDurationFor (width height : Nat) : ℚ :=
  if width < height then 2 else 3

/-- The full edit script `create_synced_video` writes (lines 1263-1297):
per-segment entries in order, then one ending entry when an ending
image is configured (and exists). -/
def create_synced_video_entries (pool : List (Int × List String))
    (audioSegments : List AudioSeg) (width height : Nat)
    (endingConfigured : Bool) (endingImage : String) : List (String × ℚ) :=
  (audioSegments.map (entriesForSeg pool)).flatten ++
  (if endingConfigured then [(endingImage, endingDurationFor width height)] else [])

/-- The total duration the renderer is trimmed to (lines 1300-1301):
audio total plus the ending duration when configured. -/
def synced_total_duration (audioSegments : List AudioSeg) (width height : Nat)
    (endingConfigured : Bool) : ℚ :=
  (audioSegments.map (·.duration)).sum +
  (if endingConfigured then endingDurationFor width height else 0)

/-! ## Daily selection via NewsData API (news_dual.py lines 607-698)

`fetch_global_news_with_backup`: one pass over the (shuffled)
categories, at most one accepted article per category, hard failure
when fewer than `count` are collected.  The HTTP layer is an external
collaborator: each category's parsed `results` arrive as input
(an API error or exception contributes an empty result list). -/

structure ApiArticle where
  title : String
  description : String
  sourceName : String
  imageUrl : String
  link : String
deriving DecidableEq, Repr

structure DualArticle where
  title : String
  description : String
  source : String
  category : String
  imageUrl : String
  link : String
deriving DecidableEq, Repr

/-- Python `str.title()` (ASCII): uppercase a letter not preceded by a
letter, lowercase the rest. -/
def pyTitleGo : Bool → List Char → List Char
  | _, [] => []
  | prevAlpha, c :: rest =>
    if c.isAlpha then
      (if prevAlpha then c.toLower else c.toUpper) :: pyTitleGo true rest
    else c :: pyTitleGo false rest

def pyTitleCase (s : String) : String := String.mk (pyTitleGo false s.data)

/-- Python `CATEGORY_NAMES.get(category, category.title())` (news_dual.py line 662). -/
def catDisplayDual (category : String) : String :=
  (List.lookup category CATEGORY_NAMES).getD (pyTitleCase category)

/-- The article record built at news_dual.py lines 658-665. -/
def toDualArticle (category : String) (a : ApiArticle) : DualArticle :=
  { title := a.title, description := a.description, source := a.sourceName,
    category := catDisplayDual category, imageUrl := a.imageUrl, link := a.link }

/-- The per-category article loop (lines 657-688): first result passing
the duplicate-identity, title/description-quality and
category-diversity checks.  (The trusted-source test only decorates the
log line.) -/
def firstGlobalPick (used : List String) (newsItems : List DualArticle)
    (category : String) (results : List ApiArticle) : Option DualArticle :=
  (results.map (toDualArticle category)).find? fun news =>
    if getNewsId news.title ∈ used then false
    else if news.title.length < 20 ∨ news.description = "" then false
    else if newsItems.any (fun n => n.category == news.category) then false
    else true

/-- The category loop (lines 632-692) with its early exit at
`count + backup` collected articles. -/
def collectGlobal (count backup : Nat) (used : List String) :
    List (String × List ApiArticle) → List DualArticle → List DualArticle
  | [], acc => acc
  | (category, results) :: rest, acc =>
    if count + backup ≤ acc.length then acc
    else
      match firstGlobalPick used acc category results with
      | some news => collectGlobal count backup used rest (acc ++ [news])
      | none => collectGlobal count backup used rest acc

/-- Embeds `fetch_global_news_with_backup` (news_dual.py line 612).  Raising is
`Except.error`.  The used-set is only read here (nothing is persisted
by this function). -/
def fetch_global_news_with_backup (count backup : Nat) (apiKeySet : Bool)
    (used0 : List String) (categoryResults : List (String × List ApiArticle)) :
    Except String (List DualArticle) :=
  if !apiKeySet then
    .error "NEWSDATA_API_KEY is not set! Please set the environment variable."
  else
    let newsItems := collectGlobal count backup used0 categoryResults []
    if newsItems.length < count then
      .error "Not enough news fetched"
    else
      .ok newsItems

/-! ## RSS selection engine (news_rss.py lines 385-567)

Both fetchers receive the feed data as input: for each category (in the
shuffled order the code produced), the category key and, per feed (in
shuffled order), the source name and that feed's raw entries.  The final
presentation `random.shuffle(selected)` is a function parameter; the
theorems below constrain it to a permutation. -/

/-- The three acceptance checks applied to each parsed item during
collection (news_rss.py lines 407-422 and 495-510): not already used,
not local, not ≥50% similar to any title accepted so far in this run. -/
def rssAccept (used0 : List String) (allTitles : List String) (a : Article) : Bool :=
  if getNewsId a.title ∈ used0 then false
  else if is_local_news a.title a.description then false
  else if is_similar_news a.title allTitles (Rat.divInt 1 2) then false
  else true

/-- Python `n['category'] == CATEGORY_NAMES.get(category)` (lines 429, 436-437);
`None` matches nothing. -/
def catCountMatches (category : String) (a : Article) : Bool :=
  match catDisplayOpt category with
  | some nm => a.category == nm
  | none => false

/-- Daily collection, inner feed loop (lines 404-430): at most one
accepted item per feed (`break` after the first accept), and the
category is abandoned once it has two accepted articles. -/
def collectFeedsDaily (used0 : List String) (category : String) :
    List (String × List RawEntry) → List Article × List String →
    List Article × List String
  | [], st => st
  | (sourceName, entries) :: rest, (allNews, allTitles) =>
    let items := parse_feed sourceName category entries
    let st1 :=
      match items.find? (rssAccept used0 allTitles) with
      | some item => (allNews ++ [item], allTitles ++ [item.title])
      | none => (allNews, allTitles)
    if 2 ≤ (st1.1.filter (catCountMatches category)).length then st1
    else collectFeedsDaily used0 category rest st1

/-- Daily collection, category loop (lines 400-430). -/
def collectCatsDaily (used0 : List String) :
    List (String × List (String × List RawEntry)) →
    List Article × List String → List Article × List String
  | [], st => st
  | (category, feeds) :: rest, st =>
    collectCatsDaily used0 rest (collectFeedsDaily used0 category feeds st)

/-- Final selection, one article per category (lines 433-442), stopping
as soon as `count` are selected. -/
def selectPerCategory (count : Nat) (allNews : List Article) :
    List String → List Article × List String → List Article × List String
  | [], st => st
  | category :: rest, (sel, selTitles) =>
    match allNews.filter (catCountMatches category) with
    | [] => selectPerCategory count allNews rest (sel, selTitles)
    | first :: _ =>
      let sel1 := sel ++ [first]
      let selTitles1 := selTitles ++ [first.title]
      if count ≤ sel1.length then (sel1, selTitles1)
      else selectPerCategory count allNews rest (sel1, selTitles1)

/-- Backfill from the remaining pool (lines 445-454): skip members of
`selected` and titles ≥50% similar to an already-selected title. -/
def fillRemaining (count : Nat) :
    List Article → List Article × List String → List Article × List String
  | [], st => st
  | news :: rest, (sel, selTitles) =>
    if news ∈ sel then fillRemaining count rest (sel, selTitles)
    else
      let st1 :=
        if is_similar_news news.title selTitles (Rat.divInt 1 2) then (sel, selTitles)
        else (sel ++ [news], selTitles ++ [news.title])
      if count ≤ st1.1.length then st1
      else fillRemaining count rest st1

/-- Embeds `fetch_rss_news` (news_rss.py line 385).  Returns the selected list
(capped at `count`) and the in-memory used-set after the final
`used_news.add` loop. -/
def fetch_rss_news (shuffle : List Article → List Article) (count : Nat)
    (used0 : List String) (cats : List (String × List (String × List RawEntry))) :
    List Article × List String :=
  let collected := collectCatsDaily used0 cats ([], [])
  let allNews := collected.1
  let sel0 := selectPerCategory count allNews (cats.map Prod.fst) ([], [])
  let sel1 := if sel0.1.length < count then fillRemaining count allNews sel0 else sel0
  let finalSel := shuffle sel1.1
  let usedOut := finalSel.foldl (fun u a => u.insert (getNewsId a.title)) used0
  (finalSel.take count, usedOut)

/-- Weekly collection, item loop (lines 495-517): accept until the
category has `per_category` articles. -/
def scanItemsWeekly (used0 : List String) (perCategory : Nat) :
    List Article → List Article × List String → List Article × List String
  | [], st => st
  | item :: rest, (catNews, allTitles) =>
    if rssAccept used0 allTitles item then
      let st1 := (catNews ++ [item], allTitles ++ [item.title])
      if perCategory ≤ st1.1.length then st1
      else scanItemsWeekly used0 perCategory rest st1
    else scanItemsWeekly used0 perCategory rest (catNews, allTitles)

/-- Weekly collection, feed loop (lines 489-517). -/
def scanFeedsWeekly (used0 : List String) (perCategory : Nat) (category : String) :
    List (String × List RawEntry) → List Article × List String →
    List Article × List String
  | [], st => st
  | (sourceName, entries) :: rest, (catNews, allTitles) =>
    if perCategory ≤ catNews.length then (catNews, allTitles)
    else
      scanFeedsWeekly used0 perCategory category rest
        (scanItemsWeekly used0 perCategory (parse_feed sourceName category entries)
          (catNews, allTitles))

/-- Weekly collection, category loop (lines 484-519): each category's
accepted articles are appended to the global pool; the title list for
the similarity check is global across categories. -/
def collectCatsWeekly (used0 : List String) (perCategory : Nat) :
    List (String × List (String × List RawEntry)) →
    List Article × List String → List Article × List String
  | [], st => st
  | (category, feeds) :: rest, (allNews, allTitles) =>
    let r := scanFeedsWeekly used0 perCategory category feeds ([], allTitles)
    collectCatsWeekly used0 perCategory rest (allNews ++ r.1, r.2)

/-- Weekly backfill, item loop (lines 539-556): the same checks plus a
whole-record membership test against the pool collected so far. -/
def fillItemsWeekly (used0 : List String) (count : Nat) :
    List Article → List Article × List String → List Article × List String
  | [], st => st
  | item :: rest, (allNews, allTitles) =>
    if getNewsId item.title ∈ used0 then
      fillItemsWeekly used0 count rest (allNews, allTitles)
    else if is_local_news item.title item.description then
      fillItemsWeekly used0 count rest (allNews, allTitles)
    else if is_similar_news item.title allTitles (Rat.divInt 1 2) then
      fillItemsWeekly used0 count rest (allNews, allTitles)
    else if item ∈ allNews then
      fillItemsWeekly used0 count rest (allNews, allTitles)
    else
      let st1 := (allNews ++ [item], allTitles ++ [item.title])
      if count ≤ st1.1.length then st1
      else fillItemsWeekly used0 count rest st1

/-- Weekly backfill, feed loop (lines 533-556). -/
def fillFeedsWeekly (used0 : List String) (count : Nat) (category : String) :
    List (String × List RawEntry) → List Article × List String →
    List Article × List String
  | [], st => st
  | (sourceName, entries) :: rest, (allNews, allTitles) =>
    if count ≤ allNews.length then (allNews, allTitles)
    else
      fillFeedsWeekly used0 count category rest
        (fillItemsWeekly used0 count (parse_feed sourceName category entries)
          (allNews, allTitles))

/-- Weekly backfill, category loop (lines 522-556); the category order
is reshuffled and feeds are re-fetched, so this phase receives its own
feed data. -/
def fillCatsWeekly (used0 : List String) (count : Nat) :
    List (String × List (String × List RawEntry)) →
    List Article × List String → List Article × List String
  | [], st => st
  | (category, feeds) :: rest, (allNews, allTitles) =>
    if count ≤ allNews.length then (allNews, allTitles)
    else
      fillCatsWeekly used0 count rest
        (fillFeedsWeekly used0 count category feeds (allNews, allTitles))

/-- Embeds `fetch_rss_news_by_category` (news_rss.py line 468).
`per_category = ceil(count / len(categories))`; a shortfall after
backfill is returned as-is (no error), capped at `count`. -/
def fetch_rss_news_by_category (shuffle : List Article → List Article)
    (count : Nat) (used0 : List String)
    (cats catsRefetch : List (String × List (String × List RawEntry))) :
    List Article × List String :=
  let perCategory := (count + cats.length - 1) / cats.length
  let phase1 := collectCatsWeekly used0 perCategory cats ([], [])
  let phase2 :=
    if phase1.1.length < count then fillCatsWeekly used0 count catsRefetch phase1
    else phase1
  let finalNews := shuffle phase2.1
  let usedOut := finalNews.foldl (fun u a => u.insert (getNewsId a.title)) used0
  (finalNews.take count, usedOut)

/-! ## Helper lemmas about the detector loops -/

/-- The survival filter of the breaking-news scan, as one predicate:
breaking keyword present, identity unused, not local. -/
def surviveB (used : List String) (a : Article) : Bool :=
  is_breaking_news a.title a.description &&
  !(decide (getNewsId a.title ∈ used)) &&
  !(is_local_news a.title a.description)

theorem surviveB_not_used {used : List String} {a : Article}
    (h : surviveB used a = true) : getNewsId a.title ∉ used := by
  simp only [surviveB, Bool.and_eq_true, Bool.not_eq_true', decide_eq_false_iff_not] at h
  exact h.1.2

/-- The imperative scan with inline skips equals filtering the
survivors first and folding the group-assignment over them. -/
theorem scanArticles_eq (used : List String) (l : List Article)
    (groups : List NewsGroup) :
    scanArticles used l groups = (l.filter (surviveB used)).foldl addToGroups groups := by
  induction l generalizing groups with
  | nil => rfl
  | cons news rest ih =>
    cases hb : is_breaking_news news.title news.description with
    | false => simp [scanArticles, surviveB, hb, ih]
    | true =>
      by_cases hu : getNewsId news.title ∈ used
      · simp [scanArticles, surviveB, hb, hu, ih]
      · cases hl : is_local_news news.title news.description with
        | false => simp [scanArticles, surviveB, hb, hu, hl, ih]
        | true => simp [scanArticles, surviveB, hb, hu, hl, ih]

/-- The selection loop is `List.find?` on the distinct-source count. -/
theorem findQualifying_eq (minSources : Nat) (l : List NewsGroup) :
    findQualifying minSources l
      = l.find? (fun g => decide (minSources ≤ g.2.2.length)) := by
  induction l with
  | nil => rfl
  | cons g gs ih =>
    by_cases h : minSources ≤ g.2.2.length
    · simp [findQualifying, h]
    · simp [findQualifying, h, ih]

theorem findQualifying_mem {minSources : Nat} {l : List NewsGroup} {g : NewsGroup}
    (h : findQualifying minSources l = some g) : g ∈ l := by
  induction l with
  | nil => simp [findQualifying] at h
  | cons g0 gs ih =>
    by_cases h0 : minSources ≤ g0.2.2.length
    · simp [findQualifying, h0] at h
      simp [h]
    · simp [findQualifying, h0] at h
      exact List.mem_cons_of_mem _ (ih h)

/-- Group representatives never change: a representative after one
`addToGroups` step is an old representative or the new article. -/
theorem addToGroups_rep {gs : List NewsGroup} {news : Article} {g : NewsGroup}
    (h : g ∈ addToGroups gs news) : g.1 ∈ gs.map (·.1) ∨ g.1 = news := by
  induction gs with
  | nil =>
    simp [addToGroups] at h
    simp [h]
  | cons g0 rest ih =>
    by_cases hs : same_topic news.title g0.1.title news.description g0.1.description
    · simp [addToGroups, hs] at h
      rcases h with h | h
      · left; simp [h]
      · left; exact List.mem_map_of_mem _ (List.mem_cons_of_mem _ h)
    · simp [addToGroups, hs] at h
      rcases h with h | h
      · left; simp [h]
      · rcases ih h with h2 | h2
        · left; exact List.mem_cons_of_mem _ h2
        · right; exact h2

/-- Representatives of the folded group list come from the initial
groups or from the scanned articles. -/
theorem foldl_addToGroups_rep (l : List Article) (init : List NewsGroup)
    (g : NewsGroup) (h : g ∈ l.foldl addToGroups init) :
    g.1 ∈ init.map (·.1) ∨ g.1 ∈ l := by
  induction l generalizing init with
  | nil =>
    left
    exact List.mem_map_of_mem _ h
  | cons a rest ih =>
    rcases ih (addToGroups init a) h with h1 | h1
    · rw [List.mem_map] at h1
      obtain ⟨g1, hg1, hrep⟩ := h1
      rcases addToGroups_rep hg1 with h2 | h2
      · left; rw [← hrep]; exact h2
      · right; rw [← hrep, h2]; exact List.mem_cons_self _ _
    · right; exact List.mem_cons_of_mem _ h1

/-- Claim C5: with today's confirmed count at (or above) the daily
maximum, `detect_breaking_news` returns `None` at once, leaves the
state untouched and performs zero feed fetches. -/
theorem detectBreakingNews_quota_no_fetch (minSources : Nat)
    (feedResults : List (List Article)) (st : BState)
    (h : MAX_BREAKING_PER_DAY ≤ st.todayCount) :
    detect_breaking_news minSources feedResults st = ⟨none, st, 0⟩ := by
  simp [detect_breaking_news, h]

def quakeA : Article :=
  { title := "Massive earthquake strikes the region", description := "",
    source := "BBC World", category := "World", link := "" }

def quakeB : Article :=
  { title := "Massive earthquake strikes the area", description := "",
    source := "Al Jazeera", category := "World", link := "" }

def quakeC : Article :=
  { title := "Massive earthquake strikes the coast", description := "",
    source := "DW", category := "World", link := "" }

theorem detectBreakingNews_quota_no_fetch_witness :
    MAX_BREAKING_PER_DAY ≤ 3 ∧
    detect_breaking_news 5 [[quakeA, quakeB, quakeC]] ⟨["someid"], 3⟩
      = ⟨none, ⟨["someid"], 3⟩, 0⟩ :=
  ⟨by decide,
   detectBreakingNews_quota_no_fetch 5 [[quakeA, quakeB, quakeC]] ⟨["someid"], 3⟩
     (by decide)⟩

/-- Claim C2: below quota, the scan assigns each surviving article to the
first group (in discovery order) whose representative matches
`same_topic`, opening a new group otherwise; the first group, in
discovery order, with at least `minSources` distinct sources yields its
representative, whose identity is inserted into the breaking used-set
as today's count is incremented; otherwise `None` with no change. -/
theorem detectBreakingNews_grouping_selection (minSources : Nat)
    (feedResults : List (List Article)) (st : BState)
    (h : st.todayCount < MAX_BREAKING_PER_DAY) :
    detect_breaking_news minSources feedResults st =
      match ((feedResults.flatten.filter (surviveB st.used)).foldl addToGroups []).find?
          (fun g => decide (minSources ≤ g.2.2.length)) with
      | some g =>
        ⟨some g.1, ⟨st.used.insert (getNewsId g.1.title), st.todayCount + 1⟩,
         feedResults.length⟩
      | none => ⟨none, st, feedResults.length⟩ := by
  have hq : ¬ MAX_BREAKING_PER_DAY ≤ st.todayCount := by omega
  simp only [detect_breaking_news, if_neg hq, scanArticles_eq, findQualifying_eq]

theorem detectBreakingNews_grouping_selection_witness :
    detect_breaking_news 3 [[quakeA, quakeB, quakeC]] ⟨[], 0⟩
      = ⟨some quakeA, ⟨[getNewsId quakeA.title], 1⟩, 1⟩ :=
  (detectBreakingNews_grouping_selection 3 [[quakeA, quakeB, quakeC]] ⟨[], 0⟩
    (by decide)).trans (by decide)

/-- Claim C10: a `None` outcome writes nothing (used-set and count are
exactly the pre-call state); a `Some` outcome adds exactly the
representative's fresh identity to the breaking used-set and increments
today's count by exactly one. -/
theorem detectBreakingNews_state_frame (minSources : Nat)
    (feedResults : List (List Article)) (st : BState) :
    ((detect_breaking_news minSources feedResults st).result = none →
      (detect_breaking_news minSources feedResults st).state = st) ∧
    (∀ a, (detect_breaking_news minSources feedResults st).result = some a →
      getNewsId a.title ∉ st.used ∧
      (detect_breaking_news minSources feedResults st).state.used
        = st.used.insert (getNewsId a.title) ∧
      (detect_breaking_news minSources feedResults st).state.todayCount
        = st.todayCount + 1) := by
  by_cases hq : MAX_BREAKING_PER_DAY ≤ st.todayCount
  · simp [detect_breaking_news, hq]
  · cases hf : findQualifying minSources (scanArticles st.used feedResults.flatten []) with
    | none => simp [detect_breaking_news, hq, hf]
    | some g =>
      have hrep : getNewsId g.1.title ∉ st.used := by
        have hmem := findQualifying_mem hf
        rw [scanArticles_eq] at hmem
        rcases foldl_addToGroups_rep _ _ _ hmem with h1 | h1
        · simp at h1
        · exact surviveB_not_used (List.of_mem_filter h1)
      constructor
      · intro hres
        simp [detect_breaking_news, hq, hf] at hres
      · intro a ha
        have ha2 : a = g.1 := by
          simp [detect_breaking_news, hq, hf] at ha
          exact ha.symm
        subst ha2
        refine ⟨hrep, ?_, ?_⟩ <;> simp [detect_breaking_news, hq, hf]

theorem detectBreakingNews_state_frame_witness :
    (detect_breaking_news 5 [[quakeA]] ⟨[], 0⟩).state = ⟨[], 0⟩ ∧
    getNewsId quakeB.title ∉ (⟨[], 1⟩ : BState).used ∧
    (detect_breaking_news 1 [[quakeB]] ⟨[], 1⟩).state.used
      = ([] : List String).insert (getNewsId quakeB.title) ∧
    (detect_breaking_news 1 [[quakeB]] ⟨[], 1⟩).state.todayCount = 1 + 1 := by
  refine ⟨(detectBreakingNews_state_frame 5 [[quakeA]] ⟨[], 0⟩).1 (by decide), ?_⟩
  have h := (detectBreakingNews_state_frame 1 [[quakeB]] ⟨[], 1⟩).2 quakeB (by decide)
  exact ⟨h.1, h.2.1, h.2.2⟩

/-! ## Identity and persistence claims -/

/-- Bridge lemma: `Rat.divInt` of the casts is field division: the Jaccard values in
`titles_match` / `is_similar_news` are the exact rational quotients. -/
theorem jaccard_eq_div (m n : Nat) :
    Rat.divInt (m : Int) (n : Int) = (m : ℚ) / (n : ℚ) := by
  rw [Rat.divInt_eq_div]
  push_cast
  ring

/-- Claim C8 (code bug): `save_used_news` persists `list(used)[-max_keep:]`
where `used` is a Python `set`, whose iteration order is arbitrary (str
hashing is randomized per process), *not* insertion order — although the
function's own docstring says "keep only the most recent" entries.
Failing input: identities inserted in the order `idA`, `idB`, `idC`
(so `idA` is oldest) with `max_keep = 2` and the perfectly legal set
iteration order `[idC, idB, idA]`: the persisted list is
`[idB, idA]` — the *newest* identity `idC` is dropped and the *oldest*
`idA` is kept, contradicting the claim that exactly the oldest entries
are dropped.  (The size bound itself does hold: at most `max_keep`
entries are persisted.) -/
theorem saveUsedNews_set_order_eval :
    save_used_news ["idC", "idB", "idA"] 2 = ["idB", "idA"] ∧
    List.Perm ["idC", "idB", "idA"] ["idA", "idB", "idC"] ∧
    (save_used_news ["idC", "idB", "idA"] 2).length ≤ 2 ∧
    "idA" ∈ save_used_news ["idC", "idB", "idA"] 2 ∧
    "idC" ∉ save_used_news ["idC", "idB", "idA"] 2 := by
  refine ⟨by decide, by decide, by decide, by decide, by decide⟩

/-- Modelled from the spec: (§3: "Identity = stable hash of
normalized title (case-folded, whitespace-collapsed)"): the case-folded,
whitespace-collapsed form of a title, used only to state what the spec
claims `get_news_id` normalizes by. -/
def specNormalizedTitle (t : String) : String :=
  String.intercalate " " ((pyWords (pyLower t).data).map String.mk)

/-- Claim C7 counterexample: `"A"` and `"a"` differ only in letter case
(their case-folded, whitespace-collapsed forms coincide), yet
`get_news_id` gives them different identities, because the code hashes
the *raw* title. -/
theorem getNewsId_case_variant_differs :
    specNormalizedTitle "A" = specNormalizedTitle "a" ∧
    getNewsId "A" ≠ getNewsId "a" := by
  constructor <;> decide

/-- Claim C7 amended: the identity is a stable hash of the raw title —
it depends only on the title's UTF-8 bytes (no case folding and no
whitespace collapsing happen before hashing). -/
theorem getNewsId_depends_only_on_raw_title_bytes (t1 t2 : String)
    (h : strBytes t1 = strBytes t2) : getNewsId t1 = getNewsId t2 := by
  simp only [getNewsId, h]

theorem getNewsId_depends_only_on_raw_title_bytes_witness :
    getNewsId "Breaking news today" = getNewsId "Breaking news today" :=
  getNewsId_depends_only_on_raw_title_bytes "Breaking news today" "Breaking news today" rfl

/-- Claim C9 counterexample: `"!!!"` is a non-empty string, `1/2 ≤ 1`,
yet `titles_match "!!!" "!!!" (1/2)` is `false`: normalization strips
all punctuation, the token set is empty, and the empty-set guard
answers `false` — so self-similarity is 0, not 1, for non-empty titles
whose normalized token set is empty. -/
theorem titlesMatch_self_empty_tokens :
    ("!!!" : String) ≠ "" ∧ (Rat.divInt 1 2 ≤ 1) ∧
    titles_match "!!!" "!!!" (Rat.divInt 1 2) = false := by
  refine ⟨by decide, by decide, by decide⟩

/-- Claim C9 amended: self-similarity is 1 (so `titles_match t t θ` holds
for every threshold `θ ≤ 1`) for every title whose *normalized token
set* is non-empty; and the empty string is similar to nothing — no
exception and no division by zero, the empty-set guard returns
`false`. -/
theorem titlesMatch_self_one_and_empty_zero :
    (∀ (t : String) (θ : ℚ), normTokens t ≠ ∅ → θ ≤ 1 →
      titles_match t t θ = true) ∧
    (∀ (x : String) (θ : ℚ), titles_match "" x θ = false) := by
  constructor
  · intro t θ hne hθ
    have hc : ((normTokens t).card : ℚ) ≠ 0 := by
      have : (normTokens t).card ≠ 0 := by
        simp [Finset.card_eq_zero, hne]
      exact_mod_cast this
    have hone : Rat.divInt ((normTokens t).card : Int) ((normTokens t).card : Int) = 1 := by
      rw [jaccard_eq_div, div_self hc]
    simp only [titles_match]
    rw [if_neg (by simp [hne])]
    apply decide_eq_true
    rw [Finset.inter_self, Finset.union_self, hone]
    exact hθ
  · intro x θ
    simp only [titles_match]
    rw [if_pos (Or.inl (show normTokens "" = ∅ by decide))]

theorem titlesMatch_self_one_and_empty_zero_witness :
    titles_match "hello world news" "hello world news" (Rat.divInt 1 2) = true ∧
    titles_match "" "abc" (Rat.divInt 1 2) = false :=
  ⟨titlesMatch_self_one_and_empty_zero.1 "hello world news" (Rat.divInt 1 2)
     (by decide) (by decide),
   titlesMatch_self_one_and_empty_zero.2 "abc" (Rat.divInt 1 2)⟩

/-! ## Assembly-planner claims -/

theorem list_lookup_mem {α β : Type} [BEq α] [LawfulBEq α]
    {l : List (α × β)} {a : α} {b : β} (h : List.lookup a l = some b) :
    (a, b) ∈ l := by
  induction l with
  | nil => simp [List.lookup] at h
  | cons p rest ih =>
    obtain ⟨k, v⟩ := p
    rw [List.lookup] at h
    cases hak : a == k with
    | true =>
      rw [hak] at h
      simp only [Option.some.injEq] at h
      rw [eq_of_beq hak, h]
      exact List.mem_cons_self _ _
    | false =>
      rw [hak] at h
      exact List.mem_cons_of_mem _ (ih h)

theorem sum_map_const_rat {α : Type} (l : List α) (c : ℚ) :
    ((l.map fun _ => c).sum) = l.length * c := by
  induction l with
  | nil => simp
  | cons a rest ih =>
    simp [ih]
    ring

/-- One segment's entries sum to exactly the segment's spoken duration
when the segment is emitted at all. -/
theorem entriesForSeg_sum (pool : List (Int × List String)) (seg : AudioSeg)
    (hpool : ∀ p ∈ pool, p.2 ≠ [])
    (htype : seg.segType = "news" ∨ seg.segType = "intro" ∨ seg.segType = "outro")
    (hnews : seg.segType = "news" → (List.lookup seg.newsIndex pool).isSome)
    (hintro : seg.segType = "intro" → (List.lookup (0 : Int) pool).isSome)
    (houtro : seg.segType = "outro" → pool ≠ []) :
    ((entriesForSeg pool seg).map Prod.snd).sum = seg.duration := by
  rcases htype with ht | ht | ht
  · obtain ⟨imgs, hl⟩ := Option.isSome_iff_exists.mp (hnews ht)
    have himgs : imgs ≠ [] := hpool _ (list_lookup_mem hl)
    have hlen : ((imgs.length : ℚ)) ≠ 0 := by
      have : imgs.length ≠ 0 := by
        simpa [List.length_eq_zero] using himgs
      exact_mod_cast this
    have hent : entriesForSeg pool seg
        = imgs.map fun img => (img, seg.duration / (imgs.length : ℚ)) := by
      simp [entriesForSeg, ht, hl]
    rw [hent, List.map_map]
    have hcomp : (Prod.snd ∘ fun img : String => (img, seg.duration / (imgs.length : ℚ)))
        = fun _ => seg.duration / (imgs.length : ℚ) := rfl
    rw [hcomp, sum_map_const_rat]
    field_simp
  · obtain ⟨imgs, hl⟩ := Option.isSome_iff_exists.mp (hintro ht)
    have hent : entriesForSeg pool seg = [(imgs.headD "", seg.duration)] := by
      simp [entriesForSeg, ht, hl]
    rw [hent]
    simp
  · obtain ⟨p, rest, hp⟩ : ∃ p rest, pool = p :: rest := by
      cases hpl : pool with
      | nil => exact absurd hpl (houtro ht)
      | cons p rest => exact ⟨p, rest, rfl⟩
    subst hp
    have hent : entriesForSeg (p :: rest) seg
        = [(((List.lookup (maxPoolKey (p :: rest)) (p :: rest)).getD []).getLastD "",
            seg.duration)] := by
      simp [entriesForSeg, ht]
    rw [hent]
    simp

/-- Claim C1: over exact rational arithmetic, the edit-script entry
durations sum to the total spoken duration plus the ending duration
(when an ending asset is configured), for any segment list in which
every story segment's index is in the image pool, intro/outro images
are available, and pool image lists are non-empty: each story segment
contributes `len(images)` entries of `duration/len(images)`, intro and
outro contribute one full-duration entry each, and the ending
contributes its fixed per-orientation duration. -/
theorem createSyncedVideo_total_duration (pool : List (Int × List String))
    (segs : List AudioSeg) (width height : Nat) (endingConfigured : Bool)
    (endingImage : String)
    (hpool : ∀ p ∈ pool, p.2 ≠ [])
    (htype : ∀ s ∈ segs,
      s.segType = "news" ∨ s.segType = "intro" ∨ s.segType = "outro")
    (hnews : ∀ s ∈ segs, s.segType = "news" → (List.lookup s.newsIndex pool).isSome)
    (hintro : ∀ s ∈ segs, s.segType = "intro" → (List.lookup (0 : Int) pool).isSome)
    (houtro : ∀ s ∈ segs, s.segType = "outro" → pool ≠ []) :
    ((create_synced_video_entries pool segs width height endingConfigured
        endingImage).map Prod.snd).sum
      = (segs.map (·.duration)).sum
        + (if endingConfigured then endingDurationFor width height else 0) := by
  unfold create_synced_video_entries
  rw [List.map_append, List.sum_append]
  have hmain : (((segs.map (entriesForSeg pool)).flatten.map Prod.snd).sum)
      = (segs.map (·.duration)).sum := by
    induction segs with
    | nil => simp
    | cons s rest ih =>
      simp only [List.map_cons, List.flatten_cons, List.map_append, List.sum_append,
        List.sum_cons]
      rw [entriesForSeg_sum pool s hpool (htype s (List.mem_cons_self _ _))
        (hnews s (List.mem_cons_self _ _)) (hintro s (List.mem_cons_self _ _))
        (houtro s (List.mem_cons_self _ _))]
      rw [ih (fun a ha => htype a (List.mem_cons_of_mem _ ha))
        (fun a ha => hnews a (List.mem_cons_of_mem _ ha))
        (fun a ha => hintro a (List.mem_cons_of_mem _ ha))
        (fun a ha => houtro a (List.mem_cons_of_mem _ ha))]
  rw [hmain]
  cases endingConfigured <;> simp

def sampleSegs : List AudioSeg :=
  [⟨-1, 3, "intro"⟩, ⟨0, 5, "news"⟩, ⟨1, 5, "news"⟩, ⟨-1, 2, "outro"⟩]

def samplePool : List (Int × List String) :=
  [(0, ["img0a.png", "img0b.png"]), (1, ["img1a.png"])]

/-- Witness for C1 at the spec's own example: spoken durations
`[3, 5, 5, 2]` and vertical ending duration 2 give a total of 17,
with story 0 holding two images and story 1 one. -/
theorem createSyncedVideo_total_duration_witness :
    ((create_synced_video_entries samplePool sampleSegs 1080 1920 true
        "ending.png").map Prod.snd).sum = 17 := by
  rw [createSyncedVideo_total_duration samplePool sampleSegs 1080 1920 true
    "ending.png" (by decide) (by decide) (by decide) (by decide) (by decide)]
  show (3 : ℚ) + (5 + (5 + (2 + 0))) + 2 = 17
  norm_num

/-- Claim C6: a segment that cannot be emitted — a story segment whose
index is missing from the pool, an intro with story 0 absent, or an
outro with an empty pool — is skipped entirely: the edit script equals
the one for the segment list with that segment removed, so its duration
is dropped, not redistributed, and the rest of the script is unchanged. -/
theorem createSyncedVideo_skips_missing_images (pool : List (Int × List String))
    (xs ys : List AudioSeg) (s : AudioSeg) (width height : Nat)
    (endingConfigured : Bool) (endingImage : String)
    (h : (s.segType = "news" ∧ List.lookup s.newsIndex pool = none) ∨
         (s.segType = "intro" ∧ List.lookup (0 : Int) pool = none) ∨
         (s.segType = "outro" ∧ pool = [])) :
    create_synced_video_entries pool (xs ++ s :: ys) width height
        endingConfigured endingImage
      = create_synced_video_entries pool (xs ++ ys) width height
        endingConfigured endingImage := by
  have hs : entriesForSeg pool s = [] := by
    rcases h with ⟨ht, hl⟩ | ⟨ht, hl⟩ | ⟨ht, hl⟩
    · have h1 : ¬ (s.segType = "intro") := by rw [ht]; decide
      have h2 : ¬ (s.segType = "outro") := by rw [ht]; decide
      simp [entriesForSeg, ht, hl, h1, h2]
    · have h1 : ¬ (s.segType = "news") := by rw [ht]; decide
      simp [entriesForSeg, ht, hl, h1]
    · have h1 : ¬ (s.segType = "news") := by rw [ht]; decide
      have h2 : ¬ (s.segType = "intro") := by rw [ht]; decide
      simp [entriesForSeg, ht, hl, h1, h2]
  unfold create_synced_video_entries
  simp [List.map_append, hs]

def missingSeg : AudioSeg := ⟨7, 4, "news"⟩

/-- Witness for C6: a story segment with index 7, absent from the pool,
contributes nothing — dropping it leaves the edit script unchanged. -/
theorem createSyncedVideo_skips_missing_images_witness :
    create_synced_video_entries samplePool
        [⟨-1, 3, "intro"⟩, missingSeg, ⟨-1, 2, "outro"⟩] 1080 1920 true "ending.png"
      = create_synced_video_entries samplePool
        [⟨-1, 3, "intro"⟩, ⟨-1, 2, "outro"⟩] 1080 1920 true "ending.png" :=
  createSyncedVideo_skips_missing_images samplePool [⟨-1, 3, "intro"⟩]
    [⟨-1, 2, "outro"⟩] missingSeg 1080 1920 true "ending.png"
    (Or.inl ⟨rfl, by decide⟩)

/-! ## Error-policy claim -/

/-- Claim C4: the strict daily mode (`fetch_global_news_with_backup`)
never returns successfully with fewer than the requested `count`
articles — a shortfall raises the explicit "Not enough news fetched"
error — while the weekly by-category variant never raises for a
shortfall and instead returns whatever it collected, capped at
`count`. -/
theorem strict_daily_raises_weekly_caps :
    (∀ (count backup : Nat) (apiKeySet : Bool) (used0 : List String)
       (categoryResults : List (String × List ApiArticle)) (news : List DualArticle),
       fetch_global_news_with_backup count backup apiKeySet used0 categoryResults
         = .ok news →
       count ≤ news.length) ∧
    (∀ (shuffle : List Article → List Article) (count : Nat) (used0 : List String)
       (cats catsRefetch : List (String × List (String × List RawEntry))),
       (fetch_rss_news_by_category shuffle count used0 cats catsRefetch).1.length
         ≤ count) := by
  constructor
  · intro count backup apiKeySet used0 categoryResults news h
    unfold fetch_global_news_with_backup at h
    by_cases hk : apiKeySet = true
    · rw [hk] at h
      simp only [Bool.not_true, Bool.false_eq_true, if_false] at h
      by_cases hlen :
          (collectGlobal count backup used0 categoryResults []).length < count
      · rw [if_pos hlen] at h
        exact absurd h (by simp)
      · rw [if_neg hlen] at h
        simp only [Except.ok.injEq] at h
        rw [← h]
        omega
    · have hk2 : apiKeySet = false := by
        cases apiKeySet
        · rfl
        · exact absurd rfl hk
      rw [hk2] at h
      simp at h
  · intro shuffle count used0 cats catsRefetch
    unfold fetch_rss_news_by_category
    exact List.length_take_le _ _

def apiArt1 : ApiArticle :=
  { title := "Global markets rally strongly today",
    description := "Stocks climbed across the board.",
    sourceName := "CNBC", imageUrl := "", link := "" }

theorem strict_daily_raises_weekly_caps_witness :
    fetch_global_news_with_backup 1 0 true [] [("business", [apiArt1])]
      = .ok [toDualArticle "business" apiArt1] ∧
    (1 : Nat) ≤ [toDualArticle "business" apiArt1].length ∧
    (fetch_rss_news_by_category id 2 [] [] []).1.length ≤ 2 :=
  ⟨rfl,
   strict_daily_raises_weekly_caps.1 1 0 true [] [("business", [apiArt1])]
     [toDualArticle "business" apiArt1] rfl,
   strict_daily_raises_weekly_caps.2 id 2 [] [] []⟩

/-! ## Selection-engine invariants (claim C3)

Within one run both fetchers deduplicate at the *title* level: every
accepted article's title survived `is_similar_news` against all titles
accepted earlier in the run, and a repeated title has Jaccard
similarity 1 with itself, which the 50% threshold rejects — provided
the title's lowercased token set is non-empty, which `parse_feed`'s
stripped-title length filter guarantees. -/

theorem dropWhile_head_false {p : Char → Bool} {l : List Char} {c : Char}
    {t : List Char} (h : l.dropWhile p = c :: t) : p c = false := by
  induction l with
  | nil => simp at h
  | cons a rest ih =>
    rw [List.dropWhile_cons] at h
    by_cases hpa : p a = true
    · rw [if_pos hpa] at h
      exact ih h
    · rw [if_neg hpa] at h
      obtain ⟨h1, _⟩ := List.cons.inj h
      rw [← h1]
      exact Bool.not_eq_true _ |>.mp hpa

theorem dropWhile_decomp (p : Char → Bool) (l : List Char) :
    ∃ pre, l = pre ++ l.dropWhile p := by
  induction l with
  | nil => exact ⟨[], rfl⟩
  | cons a rest ih =>
    rw [List.dropWhile_cons]
    by_cases hpa : p a = true
    · rw [if_pos hpa]
      obtain ⟨pre, hpre⟩ := ih
      exact ⟨a :: pre, by rw [List.cons_append, ← hpre]⟩
    · rw [if_neg hpa]
      exact ⟨[], rfl⟩

theorem pyStripL_head {l : List Char} (h : pyStripL l ≠ []) :
    ∃ c t, pyStripL l = c :: t ∧ isWs c = false := by
  unfold pyStripL at h ⊢
  obtain ⟨pre, hpre⟩ := dropWhile_decomp isWs (l.dropWhile isWs).reverse
  have hrev : l.dropWhile isWs
      = ((l.dropWhile isWs).reverse.dropWhile isWs).reverse ++ pre.reverse := by
    have h2 := congrArg List.reverse hpre
    rw [List.reverse_reverse, List.reverse_append] at h2
    exact h2
  obtain ⟨c, t, hct⟩ :
      ∃ c t, ((l.dropWhile isWs).reverse.dropWhile isWs).reverse = c :: t := by
    cases hdr : ((l.dropWhile isWs).reverse.dropWhile isWs).reverse with
    | nil => exact absurd hdr h
    | cons c t => exact ⟨c, t, rfl⟩
  refine ⟨c, t, hct, ?_⟩
  apply dropWhile_head_false (l := l) (t := t ++ pre.reverse)
  rw [hrev, hct]
  rfl

theorem pyWords_cons_ne_nil {c : Char} {t : List Char} (h : isWs c = false) :
    pyWords (c :: t) ≠ [] := by
  simp [pyWords, pyWordsGo, h]

theorem isWs_toLower (c : Char) : isWs (Char.toLower c) = isWs c := by
  show isWs (if c.toNat ≥ 65 ∧ c.toNat ≤ 90 then Char.ofNat (c.toNat + 32) else c)
      = isWs c
  by_cases h : c.toNat ≥ 65 ∧ c.toNat ≤ 90
  · rw [if_pos h]
    obtain ⟨h65, h90⟩ := h
    have hcw : isWs c = false := by
      cases hw : isWs c with
      | false => rfl
      | true =>
        simp only [isWs, Bool.or_eq_true, beq_iff_eq] at hw
        omega
    rw [hcw]
    generalize c.toNat = n at h65 h90 ⊢
    interval_cases n <;> decide
  · rw [if_neg h]

theorem strip_tokens_ne {t : String} (h : pyStrip t ≠ "") :
    pyWords (pyLower (pyStrip t)).data ≠ [] := by
  have hl : pyStripL t.data ≠ [] := by
    intro hz
    apply h
    unfold pyStrip
    rw [hz]
  obtain ⟨c, r, hcr, hcw⟩ := pyStripL_head hl
  have hdata : (pyLower (pyStrip t)).data = (pyStripL t.data).map Char.toLower := rfl
  rw [hdata, hcr, List.map_cons]
  exact pyWords_cons_ne_nil (by rw [isWs_toLower]; exact hcw)

/-- Every article `parse_feed` emits has a non-empty lowercased token
set (its stripped title is non-empty, so it starts with a
non-whitespace character). -/
theorem parse_feed_mem_tokens {src cat : String} {entries : List RawEntry}
    {a : Article} (h : a ∈ parse_feed src cat entries) :
    pyWords (pyLower a.title).data ≠ [] := by
  unfold parse_feed at h
  rw [List.mem_filterMap] at h
  obtain ⟨e, _, hfe⟩ := h
  dsimp only at hfe
  split at hfe
  · next hcond =>
    simp only [Option.some.injEq] at hfe
    rw [← hfe]
    exact strip_tokens_ne hcond.1
  · exact absurd hfe (by simp)

/-- A title with a non-empty lowercased token set is ≥50%-similar to
any list containing that very title (self-similarity 1). -/
theorem is_similar_of_self_mem {t : String} {titles : List String} {θ : ℚ}
    (htok : pyWords (pyLower t).data ≠ []) (hmem : t ∈ titles) (hθ : θ ≤ 1) :
    is_similar_news t titles θ = true := by
  unfold is_similar_news
  rw [List.any_eq_true]
  refine ⟨t, hmem, ?_⟩
  have hWne : ((pyWords (pyLower t).data).map String.mk).toFinset ≠ ∅ := by
    rw [Ne, List.toFinset_eq_empty_iff, List.map_eq_nil_iff]
    exact htok
  rw [if_neg (by simp [hWne])]
  apply decide_eq_true
  have hc : ((((pyWords (pyLower t).data).map String.mk).toFinset.card : Nat) : ℚ) ≠ 0 := by
    have h0 : ((pyWords (pyLower t).data).map String.mk).toFinset.card ≠ 0 := by
      simp [Finset.card_eq_zero, hWne]
    exact_mod_cast h0
  rw [Finset.inter_self, Finset.union_self, jaccard_eq_div, div_self hc]
  exact hθ

/-- What a successful `rssAccept` guarantees. -/
theorem rssAccept_spec {used0 allTitles : List String} {a : Article}
    (h : rssAccept used0 allTitles a = true) :
    getNewsId a.title ∉ used0 ∧
    is_similar_news a.title allTitles (Rat.divInt 1 2) = false := by
  unfold rssAccept at h
  by_cases h1 : getNewsId a.title ∈ used0
  · rw [if_pos h1] at h
    exact absurd h (by simp)
  · rw [if_neg h1] at h
    split at h
    · exact absurd h (by simp)
    · split at h
      · exact absurd h (by simp)
      · next hsim => exact ⟨h1, Bool.not_eq_true _ |>.mp hsim⟩

/-- The per-article facts carried through a run: identity not in the
pre-run used-set, and non-empty lowercased token set. -/
def ArtProps (used0 : List String) (a : Article) : Prop :=
  getNewsId a.title ∉ used0 ∧ pyWords (pyLower a.title).data ≠ []

/-- Invariant of the collection pools: the title list mirrors the
article list, titles are pairwise distinct, and every article satisfies
`ArtProps`. -/
def GoodPool (used0 : List String) (allNews : List Article)
    (allTitles : List String) : Prop :=
  allTitles = allNews.map (fun a => a.title) ∧
  allNews.Pairwise (fun a b => a.title ≠ b.title) ∧
  ∀ a ∈ allNews, ArtProps used0 a

/-- Accepting one similarity-checked article preserves the invariant. -/
theorem GoodPool.append {used0 : List String} {allNews : List Article}
    {allTitles : List String} {a : Article}
    (hg : GoodPool used0 allNews allTitles)
    (hacc : rssAccept used0 allTitles a = true)
    (htok : pyWords (pyLower a.title).data ≠ []) :
    GoodPool used0 (allNews ++ [a]) (allTitles ++ [a.title]) := by
  obtain ⟨ht, hpw, hpr⟩ := hg
  obtain ⟨hu, hsim⟩ := rssAccept_spec hacc
  refine ⟨by rw [List.map_append, ht]; rfl, ?_, ?_⟩
  · rw [List.pairwise_append]
    refine ⟨hpw, List.pairwise_singleton _ _, ?_⟩
    intro b hb c hc
    rw [List.mem_singleton] at hc
    rw [hc]
    intro hbt
    have hmem : a.title ∈ allTitles := by
      rw [ht, ← hbt]
      exact List.mem_map_of_mem _ hb
    rw [is_similar_of_self_mem htok hmem (by decide)] at hsim
    exact absurd hsim (by simp)
  · intro b hb
    rcases List.mem_append.mp hb with hb | hb
    · exact hpr b hb
    · rw [List.mem_singleton] at hb
      subst hb
      exact ⟨hu, htok⟩

theorem titleNe_symm :
    Symmetric (fun a b : Article => a.title ≠ b.title) :=
  fun _ _ hxy he => hxy he.symm

/-- Daily collection (feed loop) preserves the pool invariant. -/
theorem collectFeedsDaily_good (used0 : List String) (category : String) :
    ∀ (feeds : List (String × List RawEntry)) (allNews : List Article)
      (allTitles : List String),
      GoodPool used0 allNews allTitles →
      GoodPool used0 (collectFeedsDaily used0 category feeds (allNews, allTitles)).1
        (collectFeedsDaily used0 category feeds (allNews, allTitles)).2 := by
  intro feeds
  induction feeds with
  | nil =>
    intro allNews allTitles hg
    exact hg
  | cons f rest ih =>
    intro allNews allTitles hg
    obtain ⟨src, entries⟩ := f
    rw [collectFeedsDaily]
    cases hfind : (parse_feed src category entries).find? (rssAccept used0 allTitles) with
    | none =>
      simp only [hfind]
      split
      · exact hg
      · exact ih _ _ hg
    | some item =>
      have hitem : item ∈ parse_feed src category entries :=
        List.mem_of_find?_eq_some hfind
      have hacc : rssAccept used0 allTitles item = true := List.find?_some hfind
      have hg1 := GoodPool.append hg hacc (parse_feed_mem_tokens hitem)
      simp only [hfind]
      split
      · exact hg1
      · exact ih _ _ hg1

/-- Daily collection (category loop) preserves the pool invariant. -/
theorem collectCatsDaily_good (used0 : List String) :
    ∀ (cats : List (String × List (String × List RawEntry)))
      (allNews : List Article) (allTitles : List String),
      GoodPool used0 allNews allTitles →
      GoodPool used0 (collectCatsDaily used0 cats (allNews, allTitles)).1
        (collectCatsDaily used0 cats (allNews, allTitles)).2 := by
  intro cats
  induction cats with
  | nil =>
    intro allNews allTitles hg
    exact hg
  | cons c rest ih =>
    intro allNews allTitles hg
    obtain ⟨category, feeds⟩ := c
    rw [collectCatsDaily]
    exact ih _ _ (collectFeedsDaily_good used0 category feeds allNews allTitles hg)

theorem catCountMatches_eq {k : String} {a : Article}
    (h : catCountMatches k a = true) :
    ∃ nm, List.lookup k CATEGORY_NAMES = some nm ∧ a.category = nm := by
  unfold catCountMatches catDisplayOpt at h
  cases hl : List.lookup k CATEGORY_NAMES with
  | none => rw [hl] at h; exact absurd h (by simp)
  | some nm =>
    rw [hl] at h
    simp only [beq_iff_eq] at h
    exact ⟨nm, rfl, h⟩

theorem lookup_values_inj {L : List (String × String)}
    (hnd : (L.map Prod.snd).Nodup) {k k' v : String}
    (h1 : List.lookup k L = some v) (h2 : List.lookup k' L = some v) :
    k = k' := by
  induction L with
  | nil => simp [List.lookup] at h1
  | cons p rest ih =>
    obtain ⟨a, b⟩ := p
    rw [List.lookup] at h1 h2
    simp only [List.map_cons, List.nodup_cons] at hnd
    cases hak : k == a with
    | true =>
      rw [hak] at h1
      cases hak2 : k' == a with
      | true =>
        rw [eq_of_beq hak, eq_of_beq hak2]
      | false =>
        rw [hak2] at h2
        rw [Option.some.injEq] at h1
        have hv : v ∈ rest.map Prod.snd :=
          List.mem_map_of_mem Prod.snd (list_lookup_mem h2)
        rw [← h1] at hv
        exact absurd hv hnd.1
    | false =>
      rw [hak] at h1
      cases hak2 : k' == a with
      | true =>
        rw [hak2] at h2
        rw [Option.some.injEq] at h2
        have hv : v ∈ rest.map Prod.snd :=
          List.mem_map_of_mem Prod.snd (list_lookup_mem h1)
        rw [← h2] at hv
        exact absurd hv hnd.1
      | false =>
        rw [hak2] at h2
        exact ih hnd.2 h1 h2

/-- Two different category keys cannot both match one article's display
name (the `CATEGORY_NAMES` values are pairwise distinct). -/
theorem catCountMatches_inj {k k' : String} {a : Article}
    (h1 : catCountMatches k a = true) (h2 : catCountMatches k' a = true) :
    k = k' := by
  obtain ⟨nm, hl, hc⟩ := catCountMatches_eq h1
  obtain ⟨nm2, hl2, hc2⟩ := catCountMatches_eq h2
  have hvals : (CATEGORY_NAMES.map Prod.snd).Nodup := by decide
  apply lookup_values_inj hvals hl
  rw [hc2.symm.trans hc] at hl2
  exact hl2

/-- The per-category selection phase yields pairwise-distinct titles
(with the title list in lockstep) from a good pool, provided the
category keys are distinct (they are Python dict keys in the source). -/
theorem selectPerCategory_good (count : Nat)
    (allNews : List Article) (hpw : allNews.Pairwise (fun a b => a.title ≠ b.title)) :
    ∀ (ks : List String) (sel : List Article) (selTitles : List String),
      ks.Nodup →
      selTitles = sel.map (fun a => a.title) →
      sel.Pairwise (fun a b => a.title ≠ b.title) →
      (∀ a ∈ sel, a ∈ allNews) →
      (∀ a ∈ sel, ∀ k ∈ ks, catCountMatches k a = false) →
      (selectPerCategory count allNews ks (sel, selTitles)).2
        = (selectPerCategory count allNews ks (sel, selTitles)).1.map
            (fun a => a.title) ∧
      (selectPerCategory count allNews ks (sel, selTitles)).1.Pairwise
        (fun a b => a.title ≠ b.title) ∧
      (∀ a ∈ (selectPerCategory count allNews ks (sel, selTitles)).1,
        a ∈ allNews) := by
  intro ks
  induction ks with
  | nil =>
    intro sel selTitles _ hlock hselpw hmem _
    exact ⟨hlock, hselpw, hmem⟩
  | cons k rest ih =>
    intro sel selTitles hnd hlock hselpw hmem hnomatch
    rw [List.nodup_cons] at hnd
    cases hflt : allNews.filter (catCountMatches k) with
    | nil =>
      have hstep : selectPerCategory count allNews (k :: rest) (sel, selTitles)
          = selectPerCategory count allNews rest (sel, selTitles) := by
        rw [selectPerCategory, hflt]
      rw [hstep]
      exact ih sel selTitles hnd.2 hlock hselpw hmem
        (fun a ha k2 hk2 => hnomatch a ha k2 (List.mem_cons_of_mem _ hk2))
    | cons first more =>
      have hfmem : first ∈ allNews.filter (catCountMatches k) := by
        rw [hflt]; exact List.mem_cons_self _ _
      have hfall : first ∈ allNews := List.mem_of_mem_filter hfmem
      have hfmatch : catCountMatches k first = true := List.of_mem_filter hfmem
      have hlock1 : selTitles ++ [first.title] = (sel ++ [first]).map (fun a => a.title) := by
        rw [List.map_append, hlock]
        rfl
      have hselpw1 : (sel ++ [first]).Pairwise (fun a b => a.title ≠ b.title) := by
        rw [List.pairwise_append]
        refine ⟨hselpw, List.pairwise_singleton _ _, ?_⟩
        intro b hb c hc
        rw [List.mem_singleton] at hc
        rw [hc]
        by_cases hbf : b = first
        · subst hbf
          have hfalse := hnomatch b hb k (List.mem_cons_self _ _)
          rw [hfmatch] at hfalse
          exact absurd hfalse (by simp)
        · exact List.Pairwise.forall titleNe_symm hpw (hmem b hb) hfall hbf
      have hmem1 : ∀ a ∈ sel ++ [first], a ∈ allNews := by
        intro a ha
        rcases List.mem_append.mp ha with ha | ha
        · exact hmem a ha
        · rw [List.mem_singleton] at ha
          rw [ha]
          exact hfall
      have hnomatch1 : ∀ a ∈ sel ++ [first], ∀ k2 ∈ rest,
          catCountMatches k2 a = false := by
        intro a ha k2 hk2
        rcases List.mem_append.mp ha with ha | ha
        · exact hnomatch a ha k2 (List.mem_cons_of_mem _ hk2)
        · rw [List.mem_singleton] at ha
          subst ha
          cases hck : catCountMatches k2 a with
          | false => rfl
          | true =>
            have hkk := catCountMatches_inj hfmatch hck
            rw [hkk] at hnd
            exact absurd hk2 hnd.1
      by_cases hcnt : count ≤ (sel ++ [first]).length
      · have hstep : selectPerCategory count allNews (k :: rest) (sel, selTitles)
            = (sel ++ [first], selTitles ++ [first.title]) := by
          rw [selectPerCategory, hflt]
          simp only [if_pos hcnt]
        rw [hstep]
        exact ⟨hlock1, hselpw1, hmem1⟩
      · have hstep : selectPerCategory count allNews (k :: rest) (sel, selTitles)
            = selectPerCategory count allNews rest
                (sel ++ [first], selTitles ++ [first.title]) := by
          rw [selectPerCategory, hflt]
          simp only [if_neg hcnt]
        rw [hstep]
        exact ih _ _ hnd.2 hlock1 hselpw1 hmem1 hnomatch1

/-- The daily backfill phase preserves lockstep titles, distinct
titles, and per-article facts. -/
theorem fillRemaining_good (count : Nat) (used0 : List String) :
    ∀ (l : List Article) (sel : List Article) (selTitles : List String),
      (∀ a ∈ l, ArtProps used0 a) →
      selTitles = sel.map (fun a => a.title) →
      sel.Pairwise (fun a b => a.title ≠ b.title) →
      (∀ a ∈ sel, ArtProps used0 a) →
      (fillRemaining count l (sel, selTitles)).2
        = (fillRemaining count l (sel, selTitles)).1.map (fun a => a.title) ∧
      (fillRemaining count l (sel, selTitles)).1.Pairwise
        (fun a b => a.title ≠ b.title) ∧
      (∀ a ∈ (fillRemaining count l (sel, selTitles)).1, ArtProps used0 a) := by
  intro l
  induction l with
  | nil =>
    intro sel selTitles _ hlock hselpw hprops
    exact ⟨hlock, hselpw, hprops⟩
  | cons news rest ih =>
    intro sel selTitles hl hlock hselpw hprops
    have hlrest : ∀ a ∈ rest, ArtProps used0 a :=
      fun a ha => hl a (List.mem_cons_of_mem _ ha)
    have hnews : ArtProps used0 news := hl news (List.mem_cons_self _ _)
    by_cases hin : news ∈ sel
    · have hstep : fillRemaining count (news :: rest) (sel, selTitles)
          = fillRemaining count rest (sel, selTitles) := by
        rw [fillRemaining, if_pos hin]
      rw [hstep]
      exact ih sel selTitles hlrest hlock hselpw hprops
    · cases hsim : is_similar_news news.title selTitles (Rat.divInt 1 2) with
      | true =>
        have hstep : fillRemaining count (news :: rest) (sel, selTitles)
            = if count ≤ sel.length then (sel, selTitles)
              else fillRemaining count rest (sel, selTitles) := by
          rw [fillRemaining, if_neg hin, hsim]
          rfl
        rw [hstep]
        by_cases hcnt : count ≤ sel.length
        · rw [if_pos hcnt]
          exact ⟨hlock, hselpw, hprops⟩
        · rw [if_neg hcnt]
          exact ih sel selTitles hlrest hlock hselpw hprops
      | false =>
        have hlock1 : selTitles ++ [news.title]
            = (sel ++ [news]).map (fun a => a.title) := by
          rw [List.map_append, hlock]
          rfl
        have hselpw1 : (sel ++ [news]).Pairwise (fun a b => a.title ≠ b.title) := by
          rw [List.pairwise_append]
          refine ⟨hselpw, List.pairwise_singleton _ _, ?_⟩
          intro b hb c hc
          rw [List.mem_singleton] at hc
          rw [hc]
          intro hbt
          have hmem : news.title ∈ selTitles := by
            rw [hlock, ← hbt]
            exact List.mem_map_of_mem _ hb
          rw [is_similar_of_self_mem hnews.2 hmem (by decide)] at hsim
          exact absurd hsim (by simp)
        have hprops1 : ∀ a ∈ sel ++ [news], ArtProps used0 a := by
          intro a ha
          rcases List.mem_append.mp ha with ha | ha
          · exact hprops a ha
          · rw [List.mem_singleton] at ha
            rw [ha]
            exact hnews
        have hstep : fillRemaining count (news :: rest) (sel, selTitles)
            = if count ≤ (sel ++ [news]).length
              then (sel ++ [news], selTitles ++ [news.title])
              else fillRemaining count rest
                (sel ++ [news], selTitles ++ [news.title]) := by
          rw [fillRemaining, if_neg hin, hsim]
          rfl
        rw [hstep]
        by_cases hcnt : count ≤ (sel ++ [news]).length
        · rw [if_pos hcnt]
          exact ⟨hlock1, hselpw1, hprops1⟩
        · rw [if_neg hcnt]
          exact ih _ _ hlrest hlock1 hselpw1 hprops1

theorem rssAccept_intro {used0 allTitles : List String} {a : Article}
    (h1 : getNewsId a.title ∉ used0)
    (h2 : is_local_news a.title a.description = false)
    (h3 : is_similar_news a.title allTitles (Rat.divInt 1 2) = false) :
    rssAccept used0 allTitles a = true := by
  unfold rssAccept
  rw [if_neg h1, h2, h3]
  rfl

/-- Weekly collection (item loop) preserves the pool invariant, with
the already-collected pool of previous categories as context. -/
theorem scanItemsWeekly_good (used0 : List String) (perCategory : Nat)
    (prefixNews : List Article) :
    ∀ (items : List Article) (catNews : List Article) (allTitles : List String),
      (∀ a ∈ items, pyWords (pyLower a.title).data ≠ []) →
      GoodPool used0 (prefixNews ++ catNews) allTitles →
      GoodPool used0
        (prefixNews ++
          (scanItemsWeekly used0 perCategory items (catNews, allTitles)).1)
        (scanItemsWeekly used0 perCategory items (catNews, allTitles)).2 := by
  intro items
  induction items with
  | nil =>
    intro catNews allTitles _ hg
    exact hg
  | cons item rest ih =>
    intro catNews allTitles hitems hg
    have hrest := fun a ha => hitems a (List.mem_cons_of_mem _ ha)
    cases hacc : rssAccept used0 allTitles item with
    | false =>
      have hstep : scanItemsWeekly used0 perCategory (item :: rest) (catNews, allTitles)
          = scanItemsWeekly used0 perCategory rest (catNews, allTitles) := by
        rw [scanItemsWeekly, hacc]
        rfl
      rw [hstep]
      exact ih catNews allTitles hrest hg
    | true =>
      have hg1 : GoodPool used0 (prefixNews ++ (catNews ++ [item]))
          (allTitles ++ [item.title]) := by
        rw [← List.append_assoc]
        exact GoodPool.append hg hacc (hitems item (List.mem_cons_self _ _))
      have hstep : scanItemsWeekly used0 perCategory (item :: rest) (catNews, allTitles)
          = if perCategory ≤ (catNews ++ [item]).length
            then (catNews ++ [item], allTitles ++ [item.title])
            else scanItemsWeekly used0 perCategory rest
              (catNews ++ [item], allTitles ++ [item.title]) := by
        rw [scanItemsWeekly, hacc]
        rfl
      rw [hstep]
      by_cases hcnt : perCategory ≤ (catNews ++ [item]).length
      · rw [if_pos hcnt]
        exact hg1
      · rw [if_neg hcnt]
        exact ih _ _ hrest hg1

/-- Weekly collection (feed loop) preserves the pool invariant. -/
theorem scanFeedsWeekly_good (used0 : List String) (perCategory : Nat)
    (category : String) (prefixNews : List Article) :
    ∀ (feeds : List (String × List RawEntry)) (catNews : List Article)
      (allTitles : List String),
      GoodPool used0 (prefixNews ++ catNews) allTitles →
      GoodPool used0
        (prefixNews ++
          (scanFeedsWeekly used0 perCategory category feeds (catNews, allTitles)).1)
        (scanFeedsWeekly used0 perCategory category feeds (catNews, allTitles)).2 := by
  intro feeds
  induction feeds with
  | nil =>
    intro catNews allTitles hg
    exact hg
  | cons f rest ih =>
    intro catNews allTitles hg
    obtain ⟨src, entries⟩ := f
    by_cases hcnt : perCategory ≤ catNews.length
    · have hstep : scanFeedsWeekly used0 perCategory category
          ((src, entries) :: rest) (catNews, allTitles) = (catNews, allTitles) := by
        rw [scanFeedsWeekly, if_pos hcnt]
      rw [hstep]
      exact hg
    · have hstep : scanFeedsWeekly used0 perCategory category
          ((src, entries) :: rest) (catNews, allTitles)
          = scanFeedsWeekly used0 perCategory category rest
            (scanItemsWeekly used0 perCategory
              (parse_feed src category entries) (catNews, allTitles)) := by
        rw [scanFeedsWeekly, if_neg hcnt]
      rw [hstep]
      have hg1 := scanItemsWeekly_good used0 perCategory prefixNews
        (parse_feed src category entries) catNews allTitles
        (fun a ha => parse_feed_mem_tokens ha) hg
      exact ih _ _ hg1

/-- Weekly collection (category loop) preserves the pool invariant. -/
theorem collectCatsWeekly_good (used0 : List String) (perCategory : Nat) :
    ∀ (cats : List (String × List (String × List RawEntry)))
      (allNews : List Article) (allTitles : List String),
      GoodPool used0 allNews allTitles →
      GoodPool used0
        (collectCatsWeekly used0 perCategory cats (allNews, allTitles)).1
        (collectCatsWeekly used0 perCategory cats (allNews, allTitles)).2 := by
  intro cats
  induction cats with
  | nil =>
    intro allNews allTitles hg
    exact hg
  | cons c rest ih =>
    intro allNews allTitles hg
    obtain ⟨category, feeds⟩ := c
    have hg0 : GoodPool used0 (allNews ++ []) allTitles := by
      rw [List.append_nil]
      exact hg
    have hg1 := scanFeedsWeekly_good used0 perCategory category allNews feeds
      [] allTitles hg0
    have hstep : collectCatsWeekly used0 perCategory
        ((category, feeds) :: rest) (allNews, allTitles)
        = collectCatsWeekly used0 perCategory rest
          (allNews ++ (scanFeedsWeekly used0 perCategory category feeds
            ([], allTitles)).1,
           (scanFeedsWeekly used0 perCategory category feeds ([], allTitles)).2) := by
      rw [collectCatsWeekly]
    rw [hstep]
    exact ih _ _ hg1

/-- Weekly backfill (item loop) preserves the pool invariant. -/
theorem fillItemsWeekly_good (used0 : List String) (count : Nat) :
    ∀ (items : List Article) (allNews : List Article) (allTitles : List String),
      (∀ a ∈ items, pyWords (pyLower a.title).data ≠ []) →
      GoodPool used0 allNews allTitles →
      GoodPool used0 (fillItemsWeekly used0 count items (allNews, allTitles)).1
        (fillItemsWeekly used0 count items (allNews, allTitles)).2 := by
  intro items
  induction items with
  | nil =>
    intro allNews allTitles _ hg
    exact hg
  | cons item rest ih =>
    intro allNews allTitles hitems hg
    have hrest := fun a ha => hitems a (List.mem_cons_of_mem _ ha)
    by_cases h1 : getNewsId item.title ∈ used0
    · have hstep : fillItemsWeekly used0 count (item :: rest) (allNews, allTitles)
          = fillItemsWeekly used0 count rest (allNews, allTitles) := by
        rw [fillItemsWeekly, if_pos h1]
      rw [hstep]
      exact ih _ _ hrest hg
    · cases h2 : is_local_news item.title item.description with
      | true =>
        have hstep : fillItemsWeekly used0 count (item :: rest) (allNews, allTitles)
            = fillItemsWeekly used0 count rest (allNews, allTitles) := by
          rw [fillItemsWeekly, if_neg h1, h2]
          rfl
        rw [hstep]
        exact ih _ _ hrest hg
      | false =>
        cases h3 : is_similar_news item.title allTitles (Rat.divInt 1 2) with
        | true =>
          have hstep : fillItemsWeekly used0 count (item :: rest) (allNews, allTitles)
              = fillItemsWeekly used0 count rest (allNews, allTitles) := by
            rw [fillItemsWeekly, if_neg h1, h2, h3]
            rfl
          rw [hstep]
          exact ih _ _ hrest hg
        | false =>
          by_cases h4 : item ∈ allNews
          · have hstep : fillItemsWeekly used0 count (item :: rest) (allNews, allTitles)
                = fillItemsWeekly used0 count rest (allNews, allTitles) := by
              rw [fillItemsWeekly, if_neg h1, h2, h3, if_pos h4]
              rfl
            rw [hstep]
            exact ih _ _ hrest hg
          · have hacc := rssAccept_intro h1 h2 h3
            have hg1 := GoodPool.append hg hacc (hitems item (List.mem_cons_self _ _))
            have hstep : fillItemsWeekly used0 count (item :: rest) (allNews, allTitles)
                = if count ≤ (allNews ++ [item]).length
                  then (allNews ++ [item], allTitles ++ [item.title])
                  else fillItemsWeekly used0 count rest
                    (allNews ++ [item], allTitles ++ [item.title]) := by
              rw [fillItemsWeekly, if_neg h1, h2, h3, if_neg h4]
              rfl
            rw [hstep]
            by_cases hcnt : count ≤ (allNews ++ [item]).length
            · rw [if_pos hcnt]
              exact hg1
            · rw [if_neg hcnt]
              exact ih _ _ hrest hg1

/-- Weekly backfill (feed loop) preserves the pool invariant. -/
theorem fillFeedsWeekly_good (used0 : List String) (count : Nat)
    (category : String) :
    ∀ (feeds : List (String × List RawEntry)) (allNews : List Article)
      (allTitles : List String),
      GoodPool used0 allNews allTitles →
      GoodPool used0
        (fillFeedsWeekly used0 count category feeds (allNews, allTitles)).1
        (fillFeedsWeekly used0 count category feeds (allNews, allTitles)).2 := by
  intro feeds
  induction feeds with
  | nil =>
    intro allNews allTitles hg
    exact hg
  | cons f rest ih =>
    intro allNews allTitles hg
    obtain ⟨src, entries⟩ := f
    by_cases hcnt : count ≤ allNews.length
    · have hstep : fillFeedsWeekly used0 count category
          ((src, entries) :: rest) (allNews, allTitles) = (allNews, allTitles) := by
        rw [fillFeedsWeekly, if_pos hcnt]
      rw [hstep]
      exact hg
    · have hstep : fillFeedsWeekly used0 count category
          ((src, entries) :: rest) (allNews, allTitles)
          = fillFeedsWeekly used0 count category rest
            (fillItemsWeekly used0 count
              (parse_feed src category entries) (allNews, allTitles)) := by
        rw [fillFeedsWeekly, if_neg hcnt]
      rw [hstep]
      exact ih _ _ (fillItemsWeekly_good used0 count
        (parse_feed src category entries) allNews allTitles
        (fun a ha => parse_feed_mem_tokens ha) hg)

/-- Weekly backfill (category loop) preserves the pool invariant. -/
theorem fillCatsWeekly_good (used0 : List String) (count : Nat) :
    ∀ (cats : List (String × List (String × List RawEntry)))
      (allNews : List Article) (allTitles : List String),
      GoodPool used0 allNews allTitles →
      GoodPool used0 (fillCatsWeekly used0 count cats (allNews, allTitles)).1
        (fillCatsWeekly used0 count cats (allNews, allTitles)).2 := by
  intro cats
  induction cats with
  | nil =>
    intro allNews allTitles hg
    exact hg
  | cons c rest ih =>
    intro allNews allTitles hg
    obtain ⟨category, feeds⟩ := c
    by_cases hcnt : count ≤ allNews.length
    · have hstep : fillCatsWeekly used0 count ((category, feeds) :: rest)
          (allNews, allTitles) = (allNews, allTitles) := by
        rw [fillCatsWeekly, if_pos hcnt]
      rw [hstep]
      exact hg
    · have hstep : fillCatsWeekly used0 count ((category, feeds) :: rest)
          (allNews, allTitles)
          = fillCatsWeekly used0 count rest
            (fillFeedsWeekly used0 count category feeds (allNews, allTitles)) := by
        rw [fillCatsWeekly, if_neg hcnt]
      rw [hstep]
      exact ih _ _ (fillFeedsWeekly_good used0 count category feeds
        allNews allTitles hg)

/-- Permutation, truncation and identity-level conversion of the final
result. -/
theorem result_props (used0 : List String) (X : List Article)
    (shuffle : List Article → List Article) (hsh : ∀ l, (shuffle l).Perm l)
    (count : Nat)
    (hpw : X.Pairwise (fun a b => a.title ≠ b.title))
    (hprops : ∀ a ∈ X, ArtProps used0 a)
    (hinj : ∀ a ∈ (shuffle X).take count, ∀ b ∈ (shuffle X).take count,
      getNewsId a.title = getNewsId b.title → a.title = b.title) :
    (∀ a ∈ (shuffle X).take count, getNewsId a.title ∉ used0) ∧
    ((shuffle X).take count).Pairwise
      (fun a b => getNewsId a.title ≠ getNewsId b.title) := by
  have hperm := hsh X
  have hmemX : ∀ a ∈ (shuffle X).take count, a ∈ X := by
    intro a ha
    exact hperm.mem_iff.mp (List.mem_of_mem_take ha)
  constructor
  · intro a ha
    exact (hprops a (hmemX a ha)).1
  · have hpw2 : (shuffle X).Pairwise (fun a b => a.title ≠ b.title) :=
      (hperm.pairwise_iff fun hxy => titleNe_symm hxy).mpr hpw
    have hpw3 : ((shuffle X).take count).Pairwise (fun a b => a.title ≠ b.title) :=
      List.Pairwise.sublist (List.take_sublist _ _) hpw2
    refine List.Pairwise.imp_of_mem ?_ hpw3
    intro a b ha hb hne hid
    exact hne (hinj a ha b hb hid)

theorem shuffle_take_props (used0 : List String) (X : List Article)
    (shuffle : List Article → List Article) (hsh : ∀ l, (shuffle l).Perm l)
    (count : Nat)
    (hpw : X.Pairwise (fun a b => a.title ≠ b.title))
    (hprops : ∀ a ∈ X, ArtProps used0 a) :
    (∀ a ∈ (shuffle X).take count, ArtProps used0 a) ∧
    ((shuffle X).take count).Pairwise (fun a b => a.title ≠ b.title) := by
  have hperm := hsh X
  constructor
  · intro a ha
    exact hprops a (hperm.mem_iff.mp (List.mem_of_mem_take ha))
  · exact List.Pairwise.sublist (List.take_sublist _ _)
      ((hperm.pairwise_iff fun hxy => titleNe_symm hxy).mpr hpw)

/-- The daily fetcher returns articles with pairwise-distinct titles,
none of whose identities were in the pre-run used-set. -/
theorem fetch_rss_news_good (shuffle : List Article → List Article)
    (hsh : ∀ l, (shuffle l).Perm l) (count : Nat) (used0 : List String)
    (cats : List (String × List (String × List RawEntry)))
    (hnd : (cats.map Prod.fst).Nodup) :
    (∀ a ∈ (fetch_rss_news shuffle count used0 cats).1, ArtProps used0 a) ∧
    (fetch_rss_news shuffle count used0 cats).1.Pairwise
      (fun a b => a.title ≠ b.title) := by
  have hgD : GoodPool used0 (collectCatsDaily used0 cats ([], [])).1
      (collectCatsDaily used0 cats ([], [])).2 :=
    collectCatsDaily_good used0 cats [] []
      ⟨rfl, List.Pairwise.nil, by intro a ha; simp at ha⟩
  have hsel := selectPerCategory_good count
    (collectCatsDaily used0 cats ([], [])).1 hgD.2.1
    (cats.map Prod.fst) [] [] hnd rfl List.Pairwise.nil
    (by intro a ha; simp at ha) (by intro a ha _ _; simp at ha)
  by_cases hlen : (selectPerCategory count (collectCatsDaily used0 cats ([], [])).1
      (cats.map Prod.fst) ([], [])).1.length < count
  · have hfill := fillRemaining_good count used0
      (collectCatsDaily used0 cats ([], [])).1
      (selectPerCategory count (collectCatsDaily used0 cats ([], [])).1
        (cats.map Prod.fst) ([], [])).1
      (selectPerCategory count (collectCatsDaily used0 cats ([], [])).1
        (cats.map Prod.fst) ([], [])).2
      hgD.2.2 hsel.1 hsel.2.1
      (fun a ha => hgD.2.2 a (hsel.2.2 a ha))
    have hfin : (fetch_rss_news shuffle count used0 cats).1
        = (shuffle (fillRemaining count (collectCatsDaily used0 cats ([], [])).1
            (selectPerCategory count (collectCatsDaily used0 cats ([], [])).1
              (cats.map Prod.fst) ([], []))).1).take count := by
      simp only [fetch_rss_news, if_pos hlen]
    rw [hfin]
    exact shuffle_take_props used0 _ shuffle hsh count hfill.2.1 hfill.2.2
  · have hfin : (fetch_rss_news shuffle count used0 cats).1
        = (shuffle (selectPerCategory count
            (collectCatsDaily used0 cats ([], [])).1
            (cats.map Prod.fst) ([], [])).1).take count := by
      simp only [fetch_rss_news, if_neg hlen]
    rw [hfin]
    exact shuffle_take_props used0 _ shuffle hsh count hsel.2.1
      (fun a ha => hgD.2.2 a (hsel.2.2 a ha))

/-- The weekly by-category fetcher returns articles with pairwise-
distinct titles, none of whose identities were in the pre-run
used-set. -/
theorem fetch_rss_news_by_category_good (shuffle : List Article → List Article)
    (hsh : ∀ l, (shuffle l).Perm l) (count : Nat) (used0 : List String)
    (cats catsRefetch : List (String × List (String × List RawEntry))) :
    (∀ a ∈ (fetch_rss_news_by_category shuffle count used0 cats catsRefetch).1,
      ArtProps used0 a) ∧
    (fetch_rss_news_by_category shuffle count used0 cats catsRefetch).1.Pairwise
      (fun a b => a.title ≠ b.title) := by
  have hgW : GoodPool used0
      (collectCatsWeekly used0 ((count + cats.length - 1) / cats.length) cats
        ([], [])).1
      (collectCatsWeekly used0 ((count + cats.length - 1) / cats.length) cats
        ([], [])).2 :=
    collectCatsWeekly_good used0 _ cats [] []
      ⟨rfl, List.Pairwise.nil, by intro a ha; simp at ha⟩
  by_cases hlen : (collectCatsWeekly used0 ((count + cats.length - 1) / cats.length)
      cats ([], [])).1.length < count
  · have hgW2 : GoodPool used0
        (fillCatsWeekly used0 count catsRefetch
          (collectCatsWeekly used0 ((count + cats.length - 1) / cats.length) cats
            ([], []))).1
        (fillCatsWeekly used0 count catsRefetch
          (collectCatsWeekly used0 ((count + cats.length - 1) / cats.length) cats
            ([], []))).2 :=
      fillCatsWeekly_good used0 count catsRefetch _ _ hgW
    have hfin : (fetch_rss_news_by_category shuffle count used0 cats catsRefetch).1
        = (shuffle (fillCatsWeekly used0 count catsRefetch
            (collectCatsWeekly used0 ((count + cats.length - 1) / cats.length)
              cats ([], []))).1).take count := by
      simp only [fetch_rss_news_by_category, if_pos hlen]
    rw [hfin]
    exact shuffle_take_props used0 _ shuffle hsh count hgW2.2.1 hgW2.2.2
  · have hfin : (fetch_rss_news_by_category shuffle count used0 cats catsRefetch).1
        = (shuffle (collectCatsWeekly used0
            ((count + cats.length - 1) / cats.length) cats ([], [])).1).take
              count := by
      simp only [fetch_rss_news_by_category, if_neg hlen]
    rw [hfin]
    exact shuffle_take_props used0 _ shuffle hsh count hgW.2.1 hgW.2.2

/-- Claim C3: in any run of either fetcher, no returned article's identity
is in the pre-run used-set for that content type, and no two returned
articles share an identity.  (Identity is a 64-bit truncation of MD5,
so identity-level distinctness is stated under the hypothesis that the
hash distinguishes the distinct titles actually returned — the run
itself guarantees pairwise-distinct titles.) -/
theorem fetchRss_no_duplicates_no_reuse
    (shuffleD shuffleW : List Article → List Article)
    (hshD : ∀ l, (shuffleD l).Perm l) (hshW : ∀ l, (shuffleW l).Perm l)
    (countD countW : Nat) (usedD usedW : List String)
    (catsD catsW catsW2 : List (String × List (String × List RawEntry)))
    (hnd : (catsD.map Prod.fst).Nodup)
    (hinjD : ∀ a ∈ (fetch_rss_news shuffleD countD usedD catsD).1,
      ∀ b ∈ (fetch_rss_news shuffleD countD usedD catsD).1,
      getNewsId a.title = getNewsId b.title → a.title = b.title)
    (hinjW : ∀ a ∈ (fetch_rss_news_by_category shuffleW countW usedW catsW
        catsW2).1,
      ∀ b ∈ (fetch_rss_news_by_category shuffleW countW usedW catsW catsW2).1,
      getNewsId a.title = getNewsId b.title → a.title = b.title) :
    ((∀ a ∈ (fetch_rss_news shuffleD countD usedD catsD).1,
        getNewsId a.title ∉ usedD) ∧
      (fetch_rss_news shuffleD countD usedD catsD).1.Pairwise
        (fun a b => getNewsId a.title ≠ getNewsId b.title)) ∧
    ((∀ a ∈ (fetch_rss_news_by_category shuffleW countW usedW catsW catsW2).1,
        getNewsId a.title ∉ usedW) ∧
      (fetch_rss_news_by_category shuffleW countW usedW catsW catsW2).1.Pairwise
        (fun a b => getNewsId a.title ≠ getNewsId b.title)) := by
  have hD := fetch_rss_news_good shuffleD hshD countD usedD catsD hnd
  have hW := fetch_rss_news_by_category_good shuffleW hshW countW usedW catsW catsW2
  refine ⟨⟨fun a ha => (hD.1 a ha).1, ?_⟩, fun a ha => (hW.1 a ha).1, ?_⟩
  · refine List.Pairwise.imp_of_mem ?_ hD.2
    intro a b ha hb hne hid
    exact hne (hinjD a ha b hb hid)
  · refine List.Pairwise.imp_of_mem ?_ hW.2
    intro a b ha hb hne hid
    exact hne (hinjW a ha b hb hid)

def rawE1 : RawEntry :=
  { title := "Global markets rally strongly today",
    description := "Stocks climbed across the board.", link := "" }

def rawE2 : RawEntry :=
  { title := "Scientists discover ancient fossil site",
    description := "A dig uncovered remains.", link := "" }

def witCatsD : List (String × List (String × List RawEntry)) :=
  [("business", [("CNBC", [rawE1])]), ("science", [("Nature", [rawE2])])]

def witCatsW : List (String × List (String × List RawEntry)) :=
  [("business", [("CNBC", [rawE1])])]

theorem fetchRss_no_duplicates_no_reuse_witness :
    ((∀ a ∈ (fetch_rss_news id 2 [] witCatsD).1, getNewsId a.title ∉ ([] : List String)) ∧
      (fetch_rss_news id 2 [] witCatsD).1.Pairwise
        (fun a b => getNewsId a.title ≠ getNewsId b.title)) ∧
    ((∀ a ∈ (fetch_rss_news_by_category id 1 [] witCatsW []).1,
        getNewsId a.title ∉ ([] : List String)) ∧
      (fetch_rss_news_by_category id 1 [] witCatsW []).1.Pairwise
        (fun a b => getNewsId a.title ≠ getNewsId b.title)) :=
  fetchRss_no_duplicates_no_reuse id id (fun l => List.Perm.refl l)
    (fun l => List.Perm.refl l) 2 1 [] [] witCatsD witCatsW [] (by decide)
    (by decide) (by decide)
